import Mathlib

/-!
# textAnnotator: the annotation reconciler of `src/js/AnnotatorImpl.js`

A shallow embedding of `tvs.AnnotatorImpl` and the properties of its
reconciliation (`refreshAnnotation`), attachment store (`annotate`,
`unannotate`) and options (`setOptions`).

Modelling decisions, all visible in the definitions below:

* JavaScript numbers are rationals.  The code only stores them, adds the scroll
  offset and subtracts two coordinates.
* A style length `n + 'px'` is the number `n`; an unset style property is `none`.
  The assignment `style.width = 0` gives the length `0`.
* `undefined` is `none`.
* Target elements and the overlay nodes the annotator creates live in two heaps
  (`Dom.elems`, `Dom.nodes`); a reference is an index, so that object identity
  and in-place mutation are explicit.  An index outside the heap stands for
  `undefined`.
* An uncaught `TypeError` is `Outcome.fault`, carrying the state reached when it
  was thrown.
* The positioner, the templates, the client rectangles and the scroll offset
  are inputs; so is the result of looking elements up by a class name that is
  not one plain identifier.
* The class names of an element are the names `goog.dom.classes.get` reads from
  its `className`.
-/

namespace tvs

/-! ## Data model -/

/-- Reference to a target element (index into `Dom.elems`). -/
abbrev ElemId := Nat

/-- Reference to an overlay node (index into `Dom.nodes`). -/
abbrev NodeId := Nat

/-- One client rectangle as the rendering engine reports it.  Old engines omit
`width` and `height`. -/
structure Rect where
  left : ℚ
  top : ℚ
  right : ℚ
  bottom : ℚ
  width : Option ℚ
  height : Option ℚ
deriving DecidableEq

/-- Placement returned by `positioner.getPosition`. -/
structure Position where
  left : ℚ
  top : ℚ
  width : ℚ
  height : ℚ
deriving DecidableEq

/-- Width specification of a template part: the wildcard `'*'` or a size. -/
inductive PartWidth where
  | star
  | fixed (w : ℚ)
deriving DecidableEq

/-- Template part.  Its methods `applyToElement` and `resizeElement` belong to
the template collaborator; the model records their calls in the cell (`Td`). -/
structure Part where
  width : PartWidth
deriving DecidableEq

/-- Template: `getParts()` is `parts`. -/
structure Template where
  parts : List Part
deriving DecidableEq

/-- Table cell of an overlay shape: the arguments of the `applyToElement` call
that built it and the rectangles of the `resizeElement` calls made on it. -/
structure Td where
  part : Part
  hasPrev : Bool
  rect : Position
  partIndex : Nat
  total : Nat
  color : String
  starCost : ℚ
  resized : List Position
deriving DecidableEq

/-- Overlay fragment: the outer wrapper (`animatedDiv`), its inner `div` and the
cells of the table inside it. -/
structure OverlayNode where
  position : String
  left : Option ℚ
  top : Option ℚ
  width : Option ℚ
  height : Option ℚ
  opacity : Option ℚ
  classes : List String
  innerWidth : Option ℚ
  innerHeight : Option ℚ
  cells : List Td
deriving DecidableEq

/-- Annotation record, `tvs.ElementAnnoationInfo`: the template type, the colour
and the live overlay fragments in rectangle order. -/
structure ElementAnnoationInfo where
  type : String
  color : String
  annotationElements : List NodeId
deriving DecidableEq

/-- Target element: whether its own `target` property is truthy (as for
`<a target="_blank">`), its class names and its expando properties. -/
structure Element where
  target : Bool
  classes : List String
  props : List (String × ElementAnnoationInfo)
deriving DecidableEq

/-- Document state: the target elements, every overlay node created so far, the
overlay nodes that are children of `document.body` (in order) and the pending
`setTimeout` callbacks (each names the overlay node it captured). -/
structure Dom where
  elems : List Element
  nodes : List OverlayNode
  body : List NodeId
  timers : List NodeId
deriving DecidableEq

/-- Reference to a DOM element: a target element or an overlay wrapper. -/
inductive ElemRef where
  | target (e : ElemId)
  | overlay (n : NodeId)
deriving DecidableEq

/-- What one call reads from the rendering engine: `getClientRects()` of each
element, `tvs.AnnotatorCore.getScrollOffsets().y`, and, for a class name that is
not one plain identifier, what looking the elements up by that name gives: the
list found, or `none` when the lookup throws (`goog.dom.getElementsByClass` hands
`'.' + className` to the selector engine, where such a name is another selector
or none at all). -/
structure View where
  getClientRects : ElemId → List Rect
  yOffset : ℚ
  selectByClass : String → Option (List ElemRef)

/-- The annotator instance: `this.id`, `this.templates`, `this.positioner` and
`this.options`. -/
structure AnnotatorImpl where
  id : String
  templates : List (String × Template)
  positioner : Rect → Option ℚ → Position
  options : List (String × ℚ)

/-- Argument of `refreshAnnotation`: an element, or an event with its `target`
and `srcElement` properties. -/
inductive Arg where
  | elem (r : ElemRef)
  | event (target : Option ElemRef) (srcElement : Option ElemRef)
deriving DecidableEq

/-- Value of `elemOrEv` after lines 99-102: `undefined`, a target element, or an
object that carries no annotation property (an overlay wrapper, an event). -/
inductive Subject where
  | undef
  | target (e : ElemId)
  | other
deriving DecidableEq

/-- Result of a call: it returned (`done`) or threw (`fault`); either way the
state it left behind. -/
inductive Outcome where
  | done (d : Dom)
  | fault (d : Dom)
deriving DecidableEq

/-- State a call left behind. -/
def Outcome.state : Outcome → Dom
  | .done d => d
  | .fault d => d

/-- Sequencing: a fault ends the call. -/
def Outcome.bind (o : Outcome) (f : Dom → Outcome) : Outcome :=
  match o with
  | .done d => f d
  | .fault d => .fault d

/-- Loop `goog.array.forEach(xs, f)` or `for` over `xs`: a throwing iteration
ends the loop. -/
def forEach {α : Type} (f : Dom → α → Outcome) : List α → Dom → Outcome
  | [], d => .done d
  | x :: xs, d =>
    match f d x with
    | .done d1 => forEach f xs d1
    | .fault d1 => .fault d1

/-! ## JavaScript objects as key/value lists -/

namespace Obj

/-- Property read `o[k]`. -/
def get {β : Type} : List (String × β) → String → Option β
  | [], _ => none
  | p :: o, k => if p.1 = k then some p.2 else get o k

/-- Property write `o[k] = v`. -/
def set {β : Type} (o : List (String × β)) (k : String) (v : β) : List (String × β) :=
  match get o k with
  | some _ => o.map (fun p => if p.1 = k then (k, v) else p)
  | none => o ++ [(k, v)]

/-- Property removal. -/
def delete {β : Type} (o : List (String × β)) (k : String) : List (String × β) :=
  o.filter (fun p => p.1 ≠ k)

/-- Keys enumerated by `for (key in o)`. -/
def keys {β : Type} (o : List (String × β)) : List String :=
  o.map Prod.fst

end Obj

/-! ## Class names -/

/-- White space as the regular expression `/\S+/g` of `goog.dom.classes.get` sees
it: the characters that separate the class names of `element.className`. -/
def isJsSpace (c : Char) : Bool :=
  decide (c.toNat = 32 ∨ (9 ≤ c.toNat ∧ c.toNat ≤ 13) ∨ c.toNat = 160 ∨ c.toNat = 5760 ∨
    (8192 ≤ c.toNat ∧ c.toNat ≤ 8202) ∨ c.toNat = 8232 ∨ c.toNat = 8233 ∨ c.toNat = 8239 ∨
    c.toNat = 8287 ∨ c.toNat = 12288 ∨ c.toNat = 65279)

/-- The class names in a string, read from left to right; `cur` holds the
characters of the name being read. -/
def splitTokens : List Char → List Char → List String
  | [], cur => if cur = [] then [] else [String.mk cur]
  | c :: cs, cur =>
    if isJsSpace c then
      if cur = [] then splitTokens cs [] else String.mk cur :: splitTokens cs []
    else splitTokens cs (cur ++ [c])

/-! ## The closure library calls the source makes -/

namespace goog

/-- The call `goog.object.extend(target, source)`:
`for (key in source) target[key] = source[key]`. -/
def object.extend {β : Type} (target source : List (String × β)) : List (String × β) :=
  (Obj.keys source).foldl
    (fun t key =>
      match Obj.get source key with
      | some v => Obj.set t key v
      | none => t)
    target

/-- The call `goog.dom.classes.get` on a `className` string: its class names. -/
def dom.classes.get (className : String) : List String :=
  splitTokens className.data []

/-- The call `goog.dom.classes.enable(element, className, enabled)` on the class
names of the element.  Adding pushes the string given when none of the class
names equals it, and writes the names back joined by blanks, so that a string
with white space in it comes back as several names; removing drops the names
equal to the string given. -/
def dom.classes.enable (classes : List String) (className : String) (enabled : Bool) :
    List String :=
  if enabled then
    if className ∈ classes then classes else classes ++ dom.classes.get className
  else
    classes.filter (fun c => c ≠ className)

end goog

/-! ## Heap access -/

/-- In-place update of the heap cell `i`; nothing happens outside the heap. -/
def modifyAt {α : Type} (l : List α) (i : Nat) (f : α → α) : List α :=
  match l[i]? with
  | some a => l.set i (f a)
  | none => l

/-- Update of overlay node `n`. -/
def Dom.modifyNode (d : Dom) (n : NodeId) (f : OverlayNode → OverlayNode) : Dom :=
  { d with nodes := modifyAt d.nodes n f }

/-- Update of target element `e`. -/
def Dom.modifyElem (d : Dom) (e : ElemId) (f : Element → Element) : Dom :=
  { d with elems := modifyAt d.elems e f }

/-- The call `goog.dom.removeNode(node)`: detach the node from its parent. -/
def Dom.removeNode (d : Dom) (n : NodeId) : Dom :=
  { d with body := d.body.filter (fun x => x ≠ n) }

/-- A character of a plain class name: an ASCII letter or digit, `-` or `_`. -/
def isPlainChar (c : Char) : Bool :=
  decide ((48 ≤ c.toNat ∧ c.toNat ≤ 57) ∨ (65 ≤ c.toNat ∧ c.toNat ≤ 90) ∨
    (97 ≤ c.toNat ∧ c.toNat ≤ 122) ∨ c.toNat = 45 ∨ c.toNat = 95)

/-- A plain class name: a letter followed by plain characters.  After a dot it
is the selector of one class, and it is one class name of a `className`. -/
def isPlainClassName (s : String) : Bool :=
  match s.data with
  | [] => false
  | c :: cs =>
    decide ((65 ≤ c.toNat ∧ c.toNat ≤ 90) ∨ (97 ≤ c.toNat ∧ c.toNat ≤ 122)) && cs.all isPlainChar

/-- The call `goog.dom.getElementsByClass(className)`.  For a plain class name:
the elements of the document that carry the class, target elements and attached
overlay wrappers alike.  For any other string the result is the one the view
gives; `none` stands for a lookup that throws. -/
def Dom.getElementsByClass (d : Dom) (w : View) (className : String) : Option (List ElemRef) :=
  if isPlainClassName className then
    some
      (((List.range d.elems.length).filter
          (fun e => match d.elems[e]? with
            | some el => decide (className ∈ el.classes)
            | none => false)).map ElemRef.target
      ++ (d.body.filter
          (fun n => match d.nodes[n]? with
            | some o => decide (className ∈ o.classes)
            | none => false)).map ElemRef.overlay)
  else w.selectByClass ("." ++ className)

/-! ## `tvs.ElementAnnoationInfo` -/

/-- Modelled from the spec: the constructor of `tvs.ElementAnnoationInfo` is not
among the sources.  A new record has the given type and colour and no fragment
yet.  (The element and the key, which the source passes as well, are the place
the record is attached at; `remove` below receives them.) -/
def ElementAnnoationInfo.new (type color : String) : ElementAnnoationInfo :=
  { type := type, color := color, annotationElements := [] }

/-- Modelled from the spec: `tvs.ElementAnnoationInfo.prototype.remove` is not
among the sources.  It detaches and destroys every fragment of the record and
clears the back-reference, the property `key` of element `elem`. -/
def ElementAnnoationInfo.remove (info : ElementAnnoationInfo) (d : Dom) (elem : ElemId)
    (key : String) : Dom :=
  (info.annotationElements.foldl Dom.removeNode d).modifyElem elem
    (fun el => { el with props := Obj.delete el.props key })

/-! ## `tvs.AnnotatorImpl` -/

/-- Method `setOptions` (lines 40-42). -/
def AnnotatorImpl.setOptions (self : AnnotatorImpl) (options : List (String × ℚ)) :
    AnnotatorImpl :=
  { self with options := goog.object.extend self.options options }

/-- Constructor (lines 15-34).  An absent or empty `id` becomes `'annotator'`;
the defaults are merged with the options supplied, or with themselves. -/
def AnnotatorImpl.new (id : Option String) (templates : List (String × Template))
    (positioner : Rect → Option ℚ → Position) (options : Option (List (String × ℚ))) :
    AnnotatorImpl :=
  let self : AnnotatorImpl :=
    { id := match id with
        | some s => if s = "" then "annotator" else s
        | none => "annotator"
      templates := templates
      positioner := positioner
      options := [("height", 5), ("opacity", 0.9)] }
  self.setOptions (options.getD self.options)

/-- Method `getCssClassForAnnotated` (lines 48-50). -/
def AnnotatorImpl.getCssClassForAnnotated (self : AnnotatorImpl) : String :=
  "tvs-" ++ self.id

/-- The property name `'_' + this.id + '_info'` (lines 70, 80, 89). -/
def AnnotatorImpl.key (self : AnnotatorImpl) : String :=
  "_" ++ self.id ++ "_info"

/-- Method `getElementAnnotationInfo` (lines 79-82) on an existing element. -/
def AnnotatorImpl.getElementAnnotationInfo (self : AnnotatorImpl) (d : Dom) (elem : ElemId) :
    Option ElementAnnoationInfo :=
  match d.elems[elem]? with
  | some el => Obj.get el.props self.key
  | none => none

/-- Method `setElementAnnotationInfo` (lines 68-73). -/
def AnnotatorImpl.setElementAnnotationInfo (self : AnnotatorImpl) (d : Dom) (elem : ElemId)
    (type color : String) : Dom :=
  d.modifyElem elem
    (fun el => { el with props := Obj.set el.props self.key (ElementAnnoationInfo.new type color) })

/-- Method `clearElementAnnotationInfo` (lines 88-92): `info.remove()`. -/
def AnnotatorImpl.clearElementAnnotationInfo (self : AnnotatorImpl) (d : Dom) (elem : ElemId) :
    Outcome :=
  match self.getElementAnnotationInfo d elem with
  | some info => .done (info.remove d elem self.key)
  | none => .fault d

/-- In-place update of the record attached to `elem`. -/
def AnnotatorImpl.modifyInfo (self : AnnotatorImpl) (d : Dom) (elem : ElemId)
    (f : ElementAnnoationInfo → ElementAnnoationInfo) : Dom :=
  d.modifyElem elem
    (fun el =>
      match Obj.get el.props self.key with
      | some info => { el with props := Obj.set el.props self.key (f info) }
      | none => el)

/-- Method `templateToElement` (lines 237-266): one cell per part, built by the
part from the previous cell, the placement, its index, the number of parts, the
colour and the wildcard share. -/
def templateToElement (t : Template) (color : String) (rect : Position) : List Td :=
  let parts := t.parts
  let countStars := (parts.filter (fun p => p.width = PartWidth.star)).length
  let starCost : ℚ := (countStars : ℚ) * 100 / (parts.length : ℚ)
  parts.enum.map
    (fun ip =>
      { part := ip.2, hasPrev := decide (ip.1 ≠ 0), rect := rect, partIndex := ip.1,
        total := parts.length, color := color, starCost := starCost, resized := [] })

/-- Loop of `resizeTemplate`: part `i` resizes cell `i`. -/
def resizeCells : List Part → List Td → Position → List Td
  | _ :: ps, td :: tds, rect =>
    { td with resized := td.resized ++ [rect] } :: resizeCells ps tds rect
  | _, tds, _ => tds

/-- Method `resizeTemplate` (lines 273-282) on the cells found under the
element. -/
def resizeTemplate (template : Template) (cells : List Td) (rect : Position) : List Td :=
  resizeCells template.parts cells rect

/-- Lines 121-127 and 146-152: the clone of a rectangle, moved by the scroll
offset, with `width` and `height` derived when `width` is undefined. -/
def adjustRect (yOffset : ℚ) (r0 : Rect) : Rect :=
  let r : Rect := { r0 with top := r0.top + yOffset, bottom := r0.bottom + yOffset }
  match r.width with
  | none => { r with width := some (r.right - r.left), height := some (r.bottom - r.top) }
  | some _ => r

/-- Lines 129 and 158: `this.positioner.getPosition(r, this.options.height)`. -/
def AnnotatorImpl.placement (self : AnnotatorImpl) (w : View) (r0 : Rect) : Position :=
  self.positioner (adjustRect w.yOffset r0) (Obj.get self.options "height")

/-- Lines 130-133: the three style assignments of the resize loop. -/
def restyle (position : Position) (n : OverlayNode) : OverlayNode :=
  { n with width := some position.width, left := some position.left, top := some position.top }

/-- Line 135 on an existing fragment. -/
def resizeShape (t : Template) (position : Position) (n : OverlayNode) : OverlayNode :=
  { n with cells := resizeTemplate t n.cells position }

/-- One iteration of the resize loop (lines 121-135) for rectangle `rf.1` and
fragment `rf.2`.  Without a template, `resizeTemplate` throws after the style
assignments. -/
def AnnotatorImpl.resizeStep (self : AnnotatorImpl) (w : View) (template : Option Template)
    (d : Dom) (rf : Rect × NodeId) : Outcome :=
  let position := self.placement w rf.1
  let d1 := d.modifyNode rf.2 (restyle position)
  match template with
  | none => .fault d1
  | some t => .done (d1.modifyNode rf.2 (resizeShape t position))

/-- Lines 154-177: the overlay node one iteration of the add loop builds. -/
def AnnotatorImpl.newOverlay (self : AnnotatorImpl) (t : Template) (color : String)
    (position : Position) : OverlayNode :=
  { position := "absolute"
    left := some position.left
    top := some position.top
    width := some 0
    height := some position.height
    opacity := Obj.get self.options "opacity"
    classes := goog.dom.classes.enable [] "tvs-annotate-element" true
    innerWidth := some position.width
    innerHeight := some position.height
    cells := resizeTemplate t (templateToElement t color position) position }

/-- One iteration of the add loop (lines 146-183) for rectangle `r0`.  Without a
template, `templateToElement` throws before anything is attached.  Otherwise the
new node is allocated, appended to `document.body`, pushed on the record of
`elem`, and its deferred callback is scheduled. -/
def AnnotatorImpl.addStep (self : AnnotatorImpl) (w : View) (template : Option Template)
    (color : String) (elem : ElemId) (d : Dom) (r0 : Rect) : Outcome :=
  let position := self.placement w r0
  match template with
  | none => .fault d
  | some t =>
    let animatedDiv : NodeId := d.nodes.length
    let d1 : Dom :=
      { d with
        nodes := d.nodes ++ [self.newOverlay t color position]
        body := d.body ++ [animatedDiv]
        timers := d.timers ++ [animatedDiv] }
    .done (self.modifyInfo d1 elem
      (fun info => { info with annotationElements := info.annotationElements ++ [animatedDiv] }))

/-- Lines 99-102: what `elemOrEv` is once `if (elemOrEv.target) elemOrEv =
elemOrEv.srcElement` has run.  An element has no `srcElement` property. -/
def resolveElemOrEv (d : Dom) : Arg → Subject
  | .elem (.target e) =>
    match d.elems[e]? with
    | some el => if el.target then .undef else .target e
    | none => .undef
  | .elem (.overlay _) => .other
  | .event none _ => .other
  | .event (some _) none => .undef
  | .event (some _) (some (.target e)) =>
    match d.elems[e]? with
    | some _ => .target e
    | none => .undef
  | .event (some _) (some (.overlay _)) => .other

/-- Method `refreshAnnotation` (lines 98-186). -/
def AnnotatorImpl.refreshAnnotation (self : AnnotatorImpl) (w : View) (d : Dom)
    (elemOrEv : Arg) : Outcome :=
  match resolveElemOrEv d elemOrEv with
  | .undef => .fault d
  | .other => .done d
  | .target elem =>
    match self.getElementAnnotationInfo d elem with
    | none => .done d
    | some info =>
      let rects := w.getClientRects elem
      let equalCount := min rects.length info.annotationElements.length
      let template := Obj.get self.templates info.type
      -- resize
      (forEach (self.resizeStep w template)
          ((rects.zip info.annotationElements).take equalCount) d).bind
        fun d1 =>
          -- delete unnecessary
          let d2 := (info.annotationElements.drop equalCount).foldl Dom.removeNode d1
          let d3 := self.modifyInfo d2 elem
            (fun i => { i with annotationElements := i.annotationElements.take equalCount })
          -- add new
          forEach (self.addStep w template info.color elem) (rects.drop equalCount) d3

/-- Method `refreshAllAnnotations` (lines 55-59). -/
def AnnotatorImpl.refreshAllAnnotations (self : AnnotatorImpl) (w : View) (d : Dom) : Outcome :=
  match d.getElementsByClass w self.getCssClassForAnnotated with
  | none => .fault d
  | some elems => forEach (fun d1 r => self.refreshAnnotation w d1 (.elem r)) elems d

/-- One iteration of the loop of `unannotate` (lines 221-226). -/
def AnnotatorImpl.unannotateStep (self : AnnotatorImpl) (d : Dom) (el : ElemId) : Outcome :=
  match d.elems[el]? with
  | none => .fault d
  | some _ =>
    match self.getElementAnnotationInfo d el with
    | none => .done d
    | some _ =>
      (self.clearElementAnnotationInfo d el).bind
        fun d1 => .done (d1.modifyElem el
          (fun x => { x with
            classes := goog.dom.classes.enable x.classes self.getCssClassForAnnotated false }))

/-- Method `unannotate` (lines 215-228); a single element is the one-element
list. -/
def AnnotatorImpl.unannotate (self : AnnotatorImpl) (d : Dom) (elems : List ElemId) : Outcome :=
  forEach self.unannotateStep elems d

/-- One iteration of the loop of `annotate` (lines 203-206). -/
def AnnotatorImpl.annotateStep (self : AnnotatorImpl) (w : View) (type color : String)
    (d : Dom) (el : ElemId) : Outcome :=
  match d.elems[el]? with
  | none => .fault d
  | some _ =>
    let d1 := self.setElementAnnotationInfo d el type color
    let d2 := d1.modifyElem el
      (fun x => { x with
        classes := goog.dom.classes.enable x.classes self.getCssClassForAnnotated true })
    self.refreshAnnotation w d2 (.elem (.target el))

/-- Method `annotate` (lines 194-210); the returned array of records is not
modelled. -/
def AnnotatorImpl.annotate (self : AnnotatorImpl) (w : View) (d : Dom) (elems : List ElemId)
    (type color : String) : Outcome :=
  (self.unannotate d elems).bind
    fun d1 => forEach (self.annotateStep w type color) elems d1

/-- The deferred callback of lines 180-182 for overlay node `n`:
`adiv.style.width = idiv.style.width`. -/
def Dom.deferred (d : Dom) (n : NodeId) : Dom :=
  d.modifyNode n (fun o => { o with width := o.innerWidth })

/-! ## Predicates used in the statements -/

/-- The elements of `d1` are those of `d` up to the content of their records:
same `target` flag, same classes, and a property is present in one exactly when
it is in the other. -/
def SameElems (d d1 : Dom) : Prop :=
  d1.elems.length = d.elems.length ∧
  ∀ (e : ElemId) (el : Element), d.elems[e]? = some el →
    ∃ el1 : Element, d1.elems[e]? = some el1 ∧ el1.target = el.target ∧ el1.classes = el.classes ∧
      ∀ k, (Obj.get el1.props k).isSome = (Obj.get el.props k).isSome

/-- Node `o1` is node `o` up to what the resize loop assigns (`width`, `left`,
`top` and the cells). -/
def SameFrame (o o1 : OverlayNode) : Prop :=
  o1.position = o.position ∧ o1.height = o.height ∧ o1.opacity = o.opacity ∧
    o1.classes = o.classes ∧ o1.innerWidth = o.innerWidth ∧ o1.innerHeight = o.innerHeight

/-- One call of an operation of the annotator, or the firing of the deferred
callback of an overlay node. -/
inductive Call where
  | annotate (w : View) (elems : List ElemId) (type color : String)
  | unannotate (elems : List ElemId)
  | refreshAnnotation (w : View) (elemOrEv : Arg)
  | refreshAllAnnotations (w : View)
  | deferred (n : NodeId)

/-- Outcome of one call. -/
def AnnotatorImpl.call (self : AnnotatorImpl) (d : Dom) : Call → Outcome
  | .annotate w elems type color => self.annotate w d elems type color
  | .unannotate elems => self.unannotate d elems
  | Call.refreshAnnotation w elemOrEv => self.refreshAnnotation w d elemOrEv
  | .refreshAllAnnotations w => self.refreshAllAnnotations w d
  | .deferred n => .done (d.deferred n)

/-- State after a sequence of calls; a call that throws leaves the state it had
reached and the next call starts from there. -/
def AnnotatorImpl.run (self : AnnotatorImpl) : Dom → List Call → Dom
  | d, [] => d
  | d, c :: cs => self.run (self.call d c).state cs

/-- Whether the element carries the class. -/
def Dom.hasClass (d : Dom) (className : String) : ElemRef → Bool
  | .target e =>
    match d.elems[e]? with
    | some el => decide (className ∈ el.classes)
    | none => false
  | .overlay n =>
    match d.nodes[n]? with
    | some o => decide (className ∈ o.classes)
    | none => false

/-- Whether the element has an annotation record of this annotator.  Overlay
wrappers never have one. -/
def AnnotatorImpl.hasRecord (self : AnnotatorImpl) (d : Dom) : ElemRef → Bool
  | .target e => (self.getElementAnnotationInfo d e).isSome
  | .overlay _ => false

/-- Tag/store consistency: an element carries the tag class of the annotator
exactly when it has a record of the annotator. -/
def AnnotatorImpl.Consistent (self : AnnotatorImpl) (d : Dom) : Prop :=
  ∀ r : ElemRef, d.hasClass self.getCssClassForAnnotated r = self.hasRecord d r

/-- No element carries the tag class of the annotator or a record of it. -/
def AnnotatorImpl.Untouched (self : AnnotatorImpl) (d : Dom) : Prop :=
  ∀ r : ElemRef, d.hasClass self.getCssClassForAnnotated r = false ∧ self.hasRecord d r = false

/-- Nodes of `d1` are nodes of `d` with their classes, or carry exactly the
class the add loop gives. -/
def SameTags (d d1 : Dom) : Prop :=
  ∀ (n : NodeId) (o1 : OverlayNode), d1.nodes[n]? = some o1 →
    (∃ o : OverlayNode, d.nodes[n]? = some o ∧ o1.classes = o.classes) ∨
      o1.classes = ["tvs-annotate-element"]

/-! ## Concrete inputs -/

/-- A template of two parts, one fixed and one wildcard. -/
def exTemplate : Template :=
  { parts := [{ width := PartWidth.fixed 3 }, { width := PartWidth.star }] }

/-- A positioner that puts the overlay under the rectangle, with the desired
height. -/
def exPositioner (r : Rect) (height : Option ℚ) : Position :=
  { left := r.left, top := r.bottom, width := r.width.getD 0, height := height.getD 0 }

/-- An annotator with id `'a'`, one template and the default options. -/
def exAnnotator : AnnotatorImpl :=
  AnnotatorImpl.new (some "a") [("underline", exTemplate)] exPositioner none

/-- A rectangle given by its corner and size. -/
def exRect (l t w h : ℚ) : Rect :=
  { left := l, top := t, right := l + w, bottom := t + h, width := some w, height := some h }

/-- A view in which every element has the rectangles `rs`, scrolled by 7, and
in which a lookup by another selector finds nothing. -/
def exView (rs : List Rect) : View :=
  { getClientRects := fun _ => rs, yOffset := 7, selectByClass := fun _ => some [] }

/-- A document of two elements without annotation: element 0 is plain, element
1 is a link with `target="_blank"`. -/
def exDom : Dom :=
  { elems := [{ target := false, classes := [], props := [] },
              { target := true, classes := [], props := [] }]
    nodes := []
    body := []
    timers := [] }

/-- The document after `annotate(element 0, 'underline', 'red')` in a view of
three rectangles. -/
def exDom3 : Dom :=
  (exAnnotator.annotate
    (exView [exRect 0 0 100 20, exRect 0 20 100 20, exRect 0 40 30 20]) exDom [0]
    "underline" "red").state

/-- The document after `annotate(element 0, 'underline', 'red')` while the
element has no rectangle: a record without fragments. -/
def exDom0 : Dom :=
  (exAnnotator.annotate (exView []) exDom [0] "underline" "red").state

/-- An annotator whose id is `'annotate-element'`. -/
def exAnnotatorClash : AnnotatorImpl :=
  AnnotatorImpl.new (some "annotate-element") [("underline", exTemplate)] exPositioner none

/-- The document in which the link, element 1, has been given a record: the
state `annotate(element 1, 'underline', 'red')` leaves. -/
def exDomLink : Dom :=
  (exAnnotator.annotate (exView [exRect 0 0 100 20]) exDom [1] "underline" "red").state

/-- A document in which the link comes first: element 0 is a link with
`target="_blank"`, element 1 is plain.  Both have been annotated, one `annotate`
call each, in a view of one rectangle. -/
def exDomLinkFirst : Dom :=
  exAnnotator.run
    { elems := [{ target := true, classes := [], props := [] },
                { target := false, classes := [], props := [] }]
      nodes := []
      body := []
      timers := [] }
    [Call.annotate (exView [exRect 0 0 100 20]) [0] "underline" "red",
      Call.annotate (exView [exRect 0 0 100 20]) [1] "underline" "red"]

/-- The annotator `exAnnotator` after `setOptions({height: 10})`. -/
def exAnnotator10 : AnnotatorImpl :=
  exAnnotator.setOptions [("height", 10)]


/-! ## Objects -/

theorem Obj.get_map_self {β : Type} (o : List (String × β)) (k : String) (v : β) :
    Obj.get (o.map (fun p => if p.1 = k then (k, v) else p)) k = (Obj.get o k).map (fun _ => v) := by
  induction o with
  | nil => rfl
  | cons p o ih =>
    by_cases h : p.1 = k
    · simp [Obj.get, h]
    · simp [Obj.get, h, ih]

theorem Obj.get_map_ne {β : Type} (o : List (String × β)) (k k' : String) (v : β) (hk : k' ≠ k) :
    Obj.get (o.map (fun p => if p.1 = k then (k, v) else p)) k' = Obj.get o k' := by
  induction o with
  | nil => rfl
  | cons p o ih =>
    obtain ⟨a, b⟩ := p
    have h'' : ¬ k = k' := fun e => hk e.symm
    by_cases h : a = k
    · subst h
      simp [Obj.get, h'', ih]
    · by_cases h2 : a = k'
      · subst h2
        simp [Obj.get, h]
      · simp [Obj.get, h, h2, ih]

theorem Obj.get_append_single {β : Type} (o : List (String × β)) (k k' : String) (v : β) :
    Obj.get (o ++ [(k, v)]) k' =
      match Obj.get o k' with
      | some x => some x
      | none => if k = k' then some v else none := by
  induction o with
  | nil => simp [Obj.get]
  | cons p o ih =>
    by_cases h : p.1 = k'
    · simp [Obj.get, h]
    · simp [Obj.get, h, ih]

theorem Obj.get_set_self {β : Type} (o : List (String × β)) (k : String) (v : β) :
    Obj.get (Obj.set o k v) k = some v := by
  unfold Obj.set
  cases h : Obj.get o k with
  | some x => simp [Obj.get_map_self, h]
  | none => simp [Obj.get_append_single, h]

theorem Obj.get_set_ne {β : Type} (o : List (String × β)) (k k' : String) (v : β)
    (hk : k' ≠ k) : Obj.get (Obj.set o k v) k' = Obj.get o k' := by
  unfold Obj.set
  cases h : Obj.get o k with
  | some x => simp [Obj.get_map_ne _ _ _ _ hk]
  | none =>
    have h'' : ¬ k = k' := fun e => hk e.symm
    simp only [Obj.get_append_single, h'', if_false]
    cases Obj.get o k' <;> rfl

theorem Obj.get_delete_self {β : Type} (o : List (String × β)) (k : String) :
    Obj.get (Obj.delete o k) k = none := by
  induction o with
  | nil => rfl
  | cons p o ih =>
    by_cases h : p.1 = k
    · simpa [Obj.delete, h] using ih
    · simpa [Obj.delete, Obj.get, h] using ih

theorem Obj.get_delete_ne {β : Type} (o : List (String × β)) (k k' : String) (hk : k' ≠ k) :
    Obj.get (Obj.delete o k) k' = Obj.get o k' := by
  induction o with
  | nil => rfl
  | cons p o ih =>
    obtain ⟨a, b⟩ := p
    have h'' : ¬ k = k' := fun e => hk e.symm
    unfold Obj.delete at ih ⊢
    by_cases h : a = k
    · subst h
      simpa [Obj.get, h''] using ih
    · by_cases h2 : a = k'
      · subst h2
        simp [Obj.get, h]
      · simpa [Obj.get, h, h2] using ih

theorem Obj.delete_of_get_none {β : Type} (o : List (String × β)) (k : String)
    (h : Obj.get o k = none) : Obj.delete o k = o := by
  induction o with
  | nil => rfl
  | cons p o ih =>
    obtain ⟨a, b⟩ := p
    by_cases hp : a = k
    · simp [Obj.get, hp] at h
    · simp only [Obj.get, hp, if_false] at h
      have := ih h
      unfold Obj.delete at this ⊢
      rw [List.filter_cons_of_pos (by simpa using hp), this]

theorem Obj.get_eq_none_iff {β : Type} (o : List (String × β)) (k : String) :
    Obj.get o k = none ↔ k ∉ Obj.keys o := by
  induction o with
  | nil => simp [Obj.get, Obj.keys]
  | cons p o ih =>
    by_cases hp : p.1 = k
    · simp [Obj.get, Obj.keys, hp]
    · have hp' : ¬ k = p.1 := fun e => hp e.symm
      simp only [Obj.get, hp, if_false, ih]
      simp [Obj.keys, hp']

theorem goog.object.extend_fold_get {β : Type} (source : List (String × β)) (ks : List String)
    (target : List (String × β)) (k : String) :
    Obj.get (ks.foldl
        (fun t key =>
          match Obj.get source key with
          | some v => Obj.set t key v
          | none => t) target) k =
      if k ∈ ks ∧ (Obj.get source k).isSome then Obj.get source k else Obj.get target k := by
  induction ks generalizing target with
  | nil => simp
  | cons key ks ih =>
    rw [List.foldl_cons, ih]
    by_cases hmem : k ∈ ks ∧ (Obj.get source k).isSome
    · have : k ∈ key :: ks ∧ (Obj.get source k).isSome := ⟨List.mem_cons_of_mem _ hmem.1, hmem.2⟩
      rw [if_pos hmem, if_pos this]
    · rw [if_neg hmem]
      by_cases hk : k = key
      · subst hk
        cases hs : Obj.get source k with
        | none => simp [hs]
        | some v => simp [hs, Obj.get_set_self]
      · have hne : ¬ (k ∈ key :: ks ∧ (Obj.get source k).isSome) := by
          rintro ⟨h1, h2⟩
          rcases List.mem_cons.1 h1 with h | h
          · exact hk h
          · exact hmem ⟨h, h2⟩
        rw [if_neg hne]
        cases hs : Obj.get source key with
        | none => rfl
        | some v => simp [Obj.get_set_ne _ _ _ _ hk]

theorem goog.object.get_extend {β : Type} (target source : List (String × β)) (k : String) :
    Obj.get (goog.object.extend target source) k =
      match Obj.get source k with
      | some v => some v
      | none => Obj.get target k := by
  unfold goog.object.extend
  rw [goog.object.extend_fold_get]
  cases hs : Obj.get source k with
  | none => simp
  | some v =>
    have : k ∈ Obj.keys source := by
      by_contra hc
      rw [← Obj.get_eq_none_iff] at hc
      rw [hc] at hs
      cases hs
    simp [this]

/-! ## Class names -/

theorem isJsSpace_of_plain (c : Char) (h : isPlainChar c = true) : isJsSpace c = false := by
  unfold isPlainChar at h
  unfold isJsSpace
  rw [decide_eq_true_eq] at h
  rw [decide_eq_false_iff_not]
  omega

theorem splitTokens_of_no_space (l : List Char) (cur : List Char)
    (h : ∀ c ∈ l, isJsSpace c = false) :
    splitTokens l cur = if cur ++ l = [] then [] else [String.mk (cur ++ l)] := by
  induction l generalizing cur with
  | nil => simp [splitTokens]
  | cons c cs ih =>
    have hc : isJsSpace c = false := h c (List.mem_cons_self _ _)
    simp only [splitTokens, hc, Bool.false_eq_true, if_false]
    rw [ih (cur ++ [c]) (fun x hx => h x (List.mem_cons_of_mem _ hx))]
    simp

/-- A plain class name is one class name. -/
theorem classes_get_plain (s : String) (h : isPlainClassName s = true) :
    goog.dom.classes.get s = [s] := by
  unfold isPlainClassName at h
  unfold goog.dom.classes.get
  cases hd : s.data with
  | nil => rw [hd] at h; cases h
  | cons c cs =>
    rw [hd] at h
    simp only [Bool.and_eq_true, decide_eq_true_eq, List.all_eq_true] at h
    have hall : ∀ x ∈ c :: cs, isJsSpace x = false := by
      intro x hx
      rcases List.mem_cons.1 hx with rfl | hx
      · unfold isJsSpace
        rw [decide_eq_false_iff_not]
        have := h.1
        omega
      · exact isJsSpace_of_plain x (h.2 x hx)
    rw [splitTokens_of_no_space _ _ hall]
    simp only [List.nil_append, reduceCtorEq, if_false]
    rw [← hd]

theorem overlay_class_enable :
    goog.dom.classes.enable [] "tvs-annotate-element" true = ["tvs-annotate-element"] := by
  have h : isPlainClassName "tvs-annotate-element" = true := by decide
  simp [goog.dom.classes.enable, classes_get_plain _ h]

theorem newOverlay_classes (self : AnnotatorImpl) (t : Template) (color : String)
    (position : Position) :
    (self.newOverlay t color position).classes = ["tvs-annotate-element"] :=
  overlay_class_enable

/-! ## Heap cells and loops -/

theorem length_modifyAt {α : Type} (l : List α) (i : Nat) (f : α → α) :
    (modifyAt l i f).length = l.length := by
  unfold modifyAt
  cases l[i]? <;> simp

theorem getElem?_modifyAt {α : Type} (l : List α) (i j : Nat) (f : α → α) :
    (modifyAt l i f)[j]? = if i = j then (l[j]?).map f else l[j]? := by
  unfold modifyAt
  cases h : l[i]? with
  | none =>
    by_cases hij : i = j
    · subst hij
      simp [h]
    · simp [hij]
  | some a =>
    by_cases hij : i = j
    · subst hij
      have hlt : i < l.length := by
        rcases Nat.lt_or_ge i l.length with hlt | hge
        · exact hlt
        · rw [List.getElem?_eq_none hge] at h
          cases h
      simp [List.getElem?_set, hlt, h]
    · simp [List.getElem?_set, hij]

theorem getElem?_modifyAt_self {α : Type} (l : List α) (i : Nat) (f : α → α) :
    (modifyAt l i f)[i]? = (l[i]?).map f := by
  simp [getElem?_modifyAt]

theorem getElem?_modifyAt_ne {α : Type} (l : List α) (i j : Nat) (f : α → α) (h : i ≠ j) :
    (modifyAt l i f)[j]? = l[j]? := by
  simp [getElem?_modifyAt, h]

theorem modifyAt_modifyAt {α : Type} (l : List α) (i : Nat) (f g : α → α) :
    modifyAt (modifyAt l i f) i g = modifyAt l i (fun a => g (f a)) := by
  apply List.ext_getElem?
  intro j
  by_cases hij : i = j
  · subst hij
    simp only [getElem?_modifyAt, if_true, Option.map_map]
    rfl
  · simp [getElem?_modifyAt, hij]

theorem modifyAt_of_none {α : Type} (l : List α) (i : Nat) (f : α → α) (h : l[i]? = none) :
    modifyAt l i f = l := by
  unfold modifyAt
  rw [h]

theorem forEach_append {α : Type} (f : Dom → α → Outcome) (xs ys : List α) (d : Dom) :
    forEach f (xs ++ ys) d = (forEach f xs d).bind (forEach f ys) := by
  induction xs generalizing d with
  | nil => rfl
  | cons x xs ih =>
    simp only [List.cons_append, forEach]
    cases f d x with
    | done d1 => exact ih d1
    | fault d1 => rfl

theorem forEach_state_inv {α : Type} (P : Dom → Prop) (f : Dom → α → Outcome)
    (hf : ∀ d x, P d → P (f d x).state) (xs : List α) (d : Dom) (hd : P d) :
    P (forEach f xs d).state := by
  induction xs generalizing d with
  | nil => exact hd
  | cons x xs ih =>
    have hx := hf d x hd
    simp only [forEach]
    cases hfx : f d x with
    | done d1 =>
      rw [hfx] at hx
      exact ih d1 hx
    | fault d1 =>
      rw [hfx] at hx
      exact hx

theorem forEach_done_of_all {α : Type} (f : Dom → α → Outcome) (g : Dom → α → Dom)
    (hf : ∀ d x, f d x = .done (g d x)) (xs : List α) (d : Dom) :
    forEach f xs d = .done (xs.foldl g d) := by
  induction xs generalizing d with
  | nil => rfl
  | cons x xs ih =>
    simp only [forEach, hf, List.foldl_cons]
    exact ih _

theorem foldl_removeNode (ns : List NodeId) (d : Dom) :
    ns.foldl Dom.removeNode d = { d with body := d.body.filter (fun x => x ∉ ns) } := by
  induction ns generalizing d with
  | nil => simp
  | cons n ns ih =>
    rw [List.foldl_cons, ih]
    simp only [Dom.removeNode, List.filter_filter]
    congr 1
    apply List.filter_congr
    intro x _
    simp only [List.mem_cons, not_or, ne_eq, decide_not, Bool.decide_and]
    exact Bool.and_comm _ _

/-! ## Records attached to elements -/

theorem getInfo_of_elems (self : AnnotatorImpl) (d d1 : Dom) (h : d1.elems = d.elems)
    (e : ElemId) : self.getElementAnnotationInfo d1 e = self.getElementAnnotationInfo d e := by
  simp [AnnotatorImpl.getElementAnnotationInfo, h]

theorem getInfo_some_elem (self : AnnotatorImpl) (d : Dom) (e : ElemId)
    (info : ElementAnnoationInfo) (h : self.getElementAnnotationInfo d e = some info) :
    ∃ el, d.elems[e]? = some el ∧ Obj.get el.props self.key = some info := by
  unfold AnnotatorImpl.getElementAnnotationInfo at h
  cases he : d.elems[e]? with
  | none => simp [he] at h
  | some el => exact ⟨el, rfl, by simpa [he] using h⟩

theorem getInfo_modifyInfo_self (self : AnnotatorImpl) (d : Dom) (e : ElemId)
    (f : ElementAnnoationInfo → ElementAnnoationInfo) :
    self.getElementAnnotationInfo (self.modifyInfo d e f) e =
      (self.getElementAnnotationInfo d e).map f := by
  unfold AnnotatorImpl.getElementAnnotationInfo AnnotatorImpl.modifyInfo Dom.modifyElem
  simp only [getElem?_modifyAt_self]
  cases he : d.elems[e]? with
  | none => rfl
  | some el =>
    simp only [Option.map_some']
    cases hg : Obj.get el.props self.key with
    | none => simp [hg]
    | some info => simp [Obj.get_set_self]

theorem getInfo_modifyInfo_ne (self : AnnotatorImpl) (d : Dom) (e e' : ElemId)
    (f : ElementAnnoationInfo → ElementAnnoationInfo) (h : e ≠ e') :
    self.getElementAnnotationInfo (self.modifyInfo d e f) e' =
      self.getElementAnnotationInfo d e' := by
  unfold AnnotatorImpl.getElementAnnotationInfo AnnotatorImpl.modifyInfo Dom.modifyElem
  simp only [getElem?_modifyAt_ne _ _ _ _ h]

theorem modifyInfo_nodes (self : AnnotatorImpl) (d : Dom) (e : ElemId)
    (f : ElementAnnoationInfo → ElementAnnoationInfo) :
    (self.modifyInfo d e f).nodes = d.nodes ∧ (self.modifyInfo d e f).body = d.body ∧
      (self.modifyInfo d e f).timers = d.timers ∧
      (self.modifyInfo d e f).elems.length = d.elems.length :=
  ⟨rfl, rfl, rfl, length_modifyAt _ _ _⟩

/-- The part of an element that `modifyInfo` leaves alone, and whether a record
is attached under a key. -/
theorem modifyInfo_elem (self : AnnotatorImpl) (d : Dom) (e : ElemId)
    (f : ElementAnnoationInfo → ElementAnnoationInfo) (e' : ElemId) :
    match (self.modifyInfo d e f).elems[e']?, d.elems[e']? with
    | some el1, some el =>
      el1.target = el.target ∧ el1.classes = el.classes ∧
        ∀ k, (Obj.get el1.props k).isSome = (Obj.get el.props k).isSome
    | none, none => True
    | _, _ => False := by
  unfold AnnotatorImpl.modifyInfo Dom.modifyElem
  simp only [getElem?_modifyAt]
  by_cases h : e = e'
  · subst h
    simp only [if_true]
    cases he : d.elems[e]? with
    | none => trivial
    | some el =>
      simp only [Option.map_some']
      cases hg : Obj.get el.props self.key with
      | none => simp
      | some info =>
        refine ⟨rfl, rfl, fun k => ?_⟩
        by_cases hk : k = self.key
        · subst hk
          simp [Obj.get_set_self, hg]
        · simp [Obj.get_set_ne _ _ _ _ hk]
  · simp only [h, if_false]
    cases d.elems[e']? with
    | none => trivial
    | some el => simp

theorem getInfo_modifyElem (self : AnnotatorImpl) (d : Dom) (e e' : ElemId)
    (g : Element → Element) :
    self.getElementAnnotationInfo (d.modifyElem e g) e' =
      if e = e' then
        match d.elems[e']? with
        | some el => Obj.get (g el).props self.key
        | none => none
      else self.getElementAnnotationInfo d e' := by
  unfold AnnotatorImpl.getElementAnnotationInfo Dom.modifyElem
  simp only [getElem?_modifyAt]
  by_cases h : e = e'
  · simp only [h, if_true]
    cases d.elems[e']? <;> rfl
  · simp only [h, if_false]

/-! ## The three loops of `refreshAnnotation` -/

theorem SameElems_refl (d : Dom) : SameElems d d :=
  ⟨rfl, fun _ el h => ⟨el, h, rfl, rfl, fun _ => rfl⟩⟩

theorem SameElems_trans {d d1 d2 : Dom} (h1 : SameElems d d1) (h2 : SameElems d1 d2) :
    SameElems d d2 := by
  refine ⟨h2.1.trans h1.1, fun e el he => ?_⟩
  obtain ⟨el1, he1, ht1, hc1, hp1⟩ := h1.2 e el he
  obtain ⟨el2, he2, ht2, hc2, hp2⟩ := h2.2 e el1 he1
  exact ⟨el2, he2, ht2.trans ht1, hc2.trans hc1, fun k => (hp2 k).trans (hp1 k)⟩

theorem SameElems_of_eq {d d1 : Dom} (h : d1.elems = d.elems) : SameElems d d1 := by
  refine ⟨by rw [h], fun e el he => ⟨el, by rw [h]; exact he, rfl, rfl, fun _ => rfl⟩⟩

theorem SameElems_getElem?_none {d d1 : Dom} (h : SameElems d d1) (e : ElemId)
    (he : d.elems[e]? = none) : d1.elems[e]? = none := by
  rw [List.getElem?_eq_none_iff] at he ⊢
  rw [h.1]
  exact he

theorem SameElems_modifyInfo (self : AnnotatorImpl) (d : Dom) (e : ElemId)
    (f : ElementAnnoationInfo → ElementAnnoationInfo) : SameElems d (self.modifyInfo d e f) := by
  refine ⟨length_modifyAt _ _ _, fun e' el he => ?_⟩
  have h := modifyInfo_elem self d e f e'
  rw [he] at h
  cases h1 : (self.modifyInfo d e f).elems[e']? with
  | none => simp [h1] at h
  | some el1 =>
    rw [h1] at h
    exact ⟨el1, rfl, h⟩

theorem SameFrame_refl (o : OverlayNode) : SameFrame o o :=
  ⟨rfl, rfl, rfl, rfl, rfl, rfl⟩

theorem SameFrame_trans {o o1 o2 : OverlayNode} (h1 : SameFrame o o1) (h2 : SameFrame o1 o2) :
    SameFrame o o2 :=
  ⟨h2.1.trans h1.1, h2.2.1.trans h1.2.1, h2.2.2.1.trans h1.2.2.1,
    h2.2.2.2.1.trans h1.2.2.2.1, h2.2.2.2.2.1.trans h1.2.2.2.2.1,
    h2.2.2.2.2.2.trans h1.2.2.2.2.2⟩

theorem resizeStep_state (self : AnnotatorImpl) (w : View) (template : Option Template)
    (d : Dom) (rf : Rect × NodeId) :
    ∃ g : OverlayNode → OverlayNode, (∀ o, SameFrame o (g o)) ∧
      (self.resizeStep w template d rf).state = d.modifyNode rf.2 g := by
  unfold AnnotatorImpl.resizeStep
  cases template with
  | none => exact ⟨restyle (self.placement w rf.1), fun o => SameFrame_refl o, rfl⟩
  | some t =>
    refine ⟨fun o => resizeShape t (self.placement w rf.1) (restyle (self.placement w rf.1) o),
      fun o => SameFrame_refl o, ?_⟩
    simp only [Outcome.state, Dom.modifyNode, modifyAt_modifyAt]

theorem resizeStep_done (self : AnnotatorImpl) (w : View) (template : Option Template)
    (d d1 : Dom) (rf : Rect × NodeId) (h : self.resizeStep w template d rf = .done d1) :
    ∃ t, template = some t ∧
      d1 = d.modifyNode rf.2
        (fun o => resizeShape t (self.placement w rf.1) (restyle (self.placement w rf.1) o)) := by
  unfold AnnotatorImpl.resizeStep at h
  cases template with
  | none => cases h
  | some t =>
    refine ⟨t, rfl, ?_⟩
    simp only [Outcome.done.injEq] at h
    rw [← h]
    simp only [Dom.modifyNode, modifyAt_modifyAt]

theorem resizeStep_some (self : AnnotatorImpl) (w : View) (t : Template)
    (d : Dom) (rf : Rect × NodeId) :
    self.resizeStep w (some t) d rf = .done (d.modifyNode rf.2
        (fun o => resizeShape t (self.placement w rf.1) (restyle (self.placement w rf.1) o))) := by
  simp only [AnnotatorImpl.resizeStep, Dom.modifyNode, modifyAt_modifyAt]

/-- With a template the resize loop returns. -/
theorem resizeLoop_total (self : AnnotatorImpl) (w : View) (t : Template)
    (pairs : List (Rect × NodeId)) (d : Dom) :
    ∃ d1, forEach (self.resizeStep w (some t)) pairs d = .done d1 :=
  ⟨_, forEach_done_of_all _ _ (resizeStep_some self w t) pairs d⟩

/-- What the resize loop has done once it has returned. -/
theorem resizeLoop_done (self : AnnotatorImpl) (w : View) (template : Option Template)
    (pairs : List (Rect × NodeId)) (d d1 : Dom)
    (h : forEach (self.resizeStep w template) pairs d = .done d1) :
    d1.elems = d.elems ∧ d1.body = d.body ∧ d1.timers = d.timers ∧
    d1.nodes.length = d.nodes.length ∧
    (∀ n, n ∉ pairs.map Prod.snd → d1.nodes[n]? = d.nodes[n]?) ∧
    (∀ (n : NodeId) (o : OverlayNode), d.nodes[n]? = some o →
      ∃ o1, d1.nodes[n]? = some o1 ∧ SameFrame o o1) ∧
    ((pairs.map Prod.snd).Nodup → ∀ rf ∈ pairs, ∀ o, d.nodes[rf.2]? = some o →
      ∃ cells, d1.nodes[rf.2]? = some { restyle (self.placement w rf.1) o with cells := cells }) := by
  induction pairs generalizing d with
  | nil =>
    simp only [forEach, Outcome.done.injEq] at h
    subst h
    exact ⟨rfl, rfl, rfl, rfl, fun _ _ => rfl, fun n o ho => ⟨o, ho, SameFrame_refl o⟩,
      fun _ rf hrf => by cases hrf⟩
  | cons rf pairs ih =>
    simp only [forEach] at h
    cases hstep : self.resizeStep w template d rf with
    | fault d' => rw [hstep] at h; cases h
    | done d' =>
      rw [hstep] at h
      obtain ⟨t, _, hd'⟩ := resizeStep_done self w template d d' rf hstep
      obtain ⟨he, hb, ht, hl, hother, hframe, hnd⟩ := ih d' h
      have hn' : ∀ n, d'.nodes[n]? = if rf.2 = n then (d.nodes[n]?).map
          (fun o => resizeShape t (self.placement w rf.1) (restyle (self.placement w rf.1) o))
          else d.nodes[n]? := by
        intro n
        rw [hd']
        exact getElem?_modifyAt _ _ _ _
      refine ⟨by rw [he, hd']; rfl, by rw [hb, hd']; rfl, by rw [ht, hd']; rfl, ?_, ?_, ?_, ?_⟩
      · rw [hl, hd']
        exact length_modifyAt _ _ _
      · intro n hn
        simp only [List.map_cons, List.mem_cons, not_or] at hn
        rw [hother n hn.2, hn' n, if_neg (fun e => hn.1 e.symm)]
      · intro n o ho
        have h1 : ∃ o', d'.nodes[n]? = some o' ∧ SameFrame o o' := by
          rw [hn' n]
          by_cases hrn : rf.2 = n
          · rw [if_pos hrn, ho]
            exact ⟨_, rfl, SameFrame_refl o⟩
          · rw [if_neg hrn]
            exact ⟨o, ho, SameFrame_refl o⟩
        obtain ⟨o', ho', hf'⟩ := h1
        obtain ⟨o1, ho1, hf1⟩ := hframe n o' ho'
        exact ⟨o1, ho1, SameFrame_trans hf' hf1⟩
      · intro hnodup rf' hrf' o ho
        simp only [List.map_cons, List.nodup_cons] at hnodup
        rcases List.mem_cons.1 hrf' with heq | hmem
        · subst heq
          rw [hother rf'.2 hnodup.1, hn' rf'.2, if_pos rfl, ho]
          exact ⟨_, rfl⟩
        · have hne : rf.2 ≠ rf'.2 := by
            intro e
            apply hnodup.1
            rw [e]
            exact List.mem_map_of_mem _ hmem
          have ho' : d'.nodes[rf'.2]? = some o := by
            rw [hn' rf'.2, if_neg hne]
            exact ho
          exact hnd hnodup.2 rf' hmem o ho'

theorem addStep_none (self : AnnotatorImpl) (w : View) (color : String) (e : ElemId)
    (rs : List Rect) (d : Dom) :
    forEach (self.addStep w none color e) rs d = if rs = [] then .done d else .fault d := by
  cases rs with
  | nil => rfl
  | cons r rs => simp [forEach, AnnotatorImpl.addStep]

/-- With a template the add loop returns, and this is what it has done: one new
node per rectangle, allocated at the end of the heap, appended to the body, to
the timers and to the record of `e`. -/
theorem addLoop_spec (self : AnnotatorImpl) (w : View) (t : Template) (color : String)
    (e : ElemId) (rs : List Rect) (d : Dom) (info : ElementAnnoationInfo)
    (hinfo : self.getElementAnnotationInfo d e = some info) :
    ∃ d4, forEach (self.addStep w (some t) color e) rs d = .done d4 ∧
      d4.nodes = d.nodes ++ rs.map (fun r => self.newOverlay t color (self.placement w r)) ∧
      d4.body = d.body ++ List.range' d.nodes.length rs.length ∧
      d4.timers = d.timers ++ List.range' d.nodes.length rs.length ∧
      self.getElementAnnotationInfo d4 e = some { info with
        annotationElements :=
          info.annotationElements ++ List.range' d.nodes.length rs.length } ∧
      (∀ e', e' ≠ e → self.getElementAnnotationInfo d4 e' = self.getElementAnnotationInfo d e') ∧
      SameElems d d4 := by
  induction rs generalizing d info with
  | nil =>
    refine ⟨d, rfl, by simp, by simp, by simp, ?_, fun _ _ => rfl, SameElems_refl d⟩
    simp [hinfo]
  | cons r rs ih =>
    let d0 : Dom :=
      { d with
        nodes := d.nodes ++ [self.newOverlay t color (self.placement w r)]
        body := d.body ++ [d.nodes.length]
        timers := d.timers ++ [d.nodes.length] }
    let push : ElementAnnoationInfo → ElementAnnoationInfo :=
      fun i => { i with annotationElements := i.annotationElements ++ [d.nodes.length] }
    have hstep : self.addStep w (some t) color e d r = .done (self.modifyInfo d0 e push) := rfl
    have hinfo0 : self.getElementAnnotationInfo d0 e = some info := by
      rw [getInfo_of_elems self d d0 rfl]
      exact hinfo
    have hinfo1 : self.getElementAnnotationInfo (self.modifyInfo d0 e push) e =
        some (push info) := by
      rw [getInfo_modifyInfo_self, hinfo0]
      rfl
    obtain ⟨d4, hrun, hn, hb, ht, hi, ho, hs⟩ := ih (self.modifyInfo d0 e push) (push info) hinfo1
    have hlen : (self.modifyInfo d0 e push).nodes.length = d.nodes.length + 1 := by
      show (d.nodes ++ [_]).length = _
      simp
    refine ⟨d4, ?_, ?_, ?_, ?_, ?_, ?_, ?_⟩
    · simp only [forEach, hstep]
      exact hrun
    · rw [hn]
      show (d.nodes ++ [_]) ++ _ = _
      simp
    · rw [hb, hlen]
      show (d.body ++ [d.nodes.length]) ++ _ = _
      simp [List.range'_succ]
    · rw [ht, hlen]
      show (d.timers ++ [d.nodes.length]) ++ _ = _
      simp [List.range'_succ]
    · rw [hi, hlen]
      simp [push, List.range'_succ]
    · intro e' he'
      rw [ho e' he', getInfo_modifyInfo_ne self d0 e e' push (fun h => he' h.symm)]
      exact getInfo_of_elems self d d0 rfl e'
    · have h0 : SameElems d d0 := SameElems_of_eq rfl
      exact SameElems_trans (SameElems_trans h0 (SameElems_modifyInfo self d0 e push)) hs

/-! ## `refreshAnnotation` on a resolved, annotated element -/

theorem refresh_eq (self : AnnotatorImpl) (w : View) (d : Dom) (a : Arg) (e : ElemId)
    (info : ElementAnnoationInfo) (hres : resolveElemOrEv d a = .target e)
    (hinfo : self.getElementAnnotationInfo d e = some info) (k : Nat)
    (hk : k = min (w.getClientRects e).length info.annotationElements.length) :
    self.refreshAnnotation w d a =
      (forEach (self.resizeStep w (Obj.get self.templates info.type))
          (((w.getClientRects e).zip info.annotationElements).take k) d).bind
        fun d1 =>
          forEach (self.addStep w (Obj.get self.templates info.type) info.color e)
            ((w.getClientRects e).drop k)
            (self.modifyInfo ((info.annotationElements.drop k).foldl Dom.removeNode d1) e
              (fun i => { i with annotationElements := i.annotationElements.take k })) := by
  subst hk
  unfold AnnotatorImpl.refreshAnnotation
  simp only [hres, hinfo]

theorem zip_take_min {α β : Type} (xs : List α) (ys : List β) :
    (xs.zip ys).take (min xs.length ys.length) = xs.zip ys := by
  apply List.take_of_length_le
  simp

theorem zip_map_snd_eq_take {α β : Type} (xs : List α) (ys : List β) :
    (xs.zip ys).map Prod.snd = ys.take (min xs.length ys.length) := by
  induction xs generalizing ys with
  | nil => simp
  | cons x xs ih =>
    cases ys with
    | nil => simp
    | cons y ys =>
      simp only [List.zip_cons_cons, List.map_cons, List.length_cons, Nat.succ_min_succ,
        List.take_succ_cons, ih]

/-- The structure of the state a returning `refreshAnnotation` leaves: the
resize loop ran to `d1` on the first `k` fragments, the surplus fragments left
the body and the record, and one node per missing rectangle was appended. -/
theorem refresh_done_core (self : AnnotatorImpl) (w : View) (d d' : Dom) (a : Arg) (e : ElemId)
    (info : ElementAnnoationInfo) (hres : resolveElemOrEv d a = .target e)
    (hinfo : self.getElementAnnotationInfo d e = some info) (k : Nat)
    (hk : k = min (w.getClientRects e).length info.annotationElements.length)
    (hdone : self.refreshAnnotation w d a = .done d') :
    ∃ d1 news,
      forEach (self.resizeStep w (Obj.get self.templates info.type))
        ((w.getClientRects e).zip info.annotationElements) d = .done d1 ∧
      news.length = (w.getClientRects e).length - k ∧
      (∀ (j : Nat) (r : Rect), ((w.getClientRects e).drop k)[j]? = some r →
        ∃ t, Obj.get self.templates info.type = some t ∧
          news[j]? = some (self.newOverlay t info.color (self.placement w r))) ∧
      d'.nodes = d1.nodes ++ news ∧
      d'.body = d.body.filter (fun x => x ∉ info.annotationElements.drop k) ++
        List.range' d.nodes.length news.length ∧
      d'.timers = d.timers ++ List.range' d.nodes.length news.length ∧
      self.getElementAnnotationInfo d' e = some { info with
        annotationElements :=
          info.annotationElements.take k ++ List.range' d.nodes.length news.length } ∧
      (∀ e', e' ≠ e → self.getElementAnnotationInfo d' e' = self.getElementAnnotationInfo d e') ∧
      SameElems d d' := by
  rw [refresh_eq self w d a e info hres hinfo k hk] at hdone
  have hz : ((w.getClientRects e).zip info.annotationElements).take k =
      (w.getClientRects e).zip info.annotationElements := by
    rw [hk]
    exact zip_take_min _ _
  rw [hz] at hdone
  cases hrun : forEach (self.resizeStep w (Obj.get self.templates info.type))
      ((w.getClientRects e).zip info.annotationElements) d with
  | fault d1 => rw [hrun] at hdone; cases hdone
  | done d1 =>
    rw [hrun] at hdone
    simp only [Outcome.bind] at hdone
    obtain ⟨he1, hb1, ht1, hl1, -, -, -⟩ := resizeLoop_done self w _ _ d d1 hrun
    -- the state the add loop starts from
    let trunc : ElementAnnoationInfo → ElementAnnoationInfo :=
      fun i => { i with annotationElements := i.annotationElements.take k }
    let d2 : Dom := (info.annotationElements.drop k).foldl Dom.removeNode d1
    have hd2 : d2 = { d1 with
        body := d1.body.filter (fun x => x ∉ info.annotationElements.drop k) } :=
      foldl_removeNode _ _
    have hd2e : d2.elems = d.elems := by rw [hd2]; exact he1
    have hinfo3 : self.getElementAnnotationInfo (self.modifyInfo d2 e trunc) e =
        some (trunc info) := by
      rw [getInfo_modifyInfo_self, getInfo_of_elems self d d2 hd2e, hinfo]
      rfl
    have hsame3 : SameElems d (self.modifyInfo d2 e trunc) :=
      SameElems_trans (SameElems_of_eq hd2e) (SameElems_modifyInfo self d2 e trunc)
    have hother3 : ∀ e', e' ≠ e →
        self.getElementAnnotationInfo (self.modifyInfo d2 e trunc) e' =
          self.getElementAnnotationInfo d e' := by
      intro e' he'
      rw [getInfo_modifyInfo_ne self d2 e e' trunc (fun h => he' h.symm)]
      exact getInfo_of_elems self d d2 hd2e e'
    have hn3 : (self.modifyInfo d2 e trunc).nodes = d1.nodes := by
      show d2.nodes = d1.nodes
      rw [hd2]
    have hb3 : (self.modifyInfo d2 e trunc).body =
        d.body.filter (fun x => x ∉ info.annotationElements.drop k) := by
      show d2.body = _
      rw [hd2, hb1]
    have ht3 : (self.modifyInfo d2 e trunc).timers = d.timers := by
      show d2.timers = _
      rw [hd2, ht1]
    change forEach _ _ (self.modifyInfo d2 e trunc) = _ at hdone
    cases htpl : Obj.get self.templates info.type with
    | none =>
      rw [htpl, addStep_none] at hdone
      by_cases hrs : (w.getClientRects e).drop k = []
      · rw [if_pos hrs] at hdone
        simp only [Outcome.done.injEq] at hdone
        have hlen0 : (w.getClientRects e).length - k = 0 := by
          have := congrArg List.length hrs
          simpa using this
        refine ⟨d1, [], rfl, by simp [hlen0], ?_, ?_, ?_, ?_, ?_, ?_, ?_⟩
        · intro j r hj
          rw [hrs] at hj
          simp at hj
        · rw [← hdone, hn3]; simp
        · rw [← hdone, hb3]; simp
        · rw [← hdone, ht3]; simp
        · rw [← hdone, hinfo3]; simp [trunc]
        · rw [← hdone]; exact hother3
        · rw [← hdone]; exact hsame3
      · rw [if_neg hrs] at hdone
        cases hdone
    | some t =>
      rw [htpl] at hdone
      obtain ⟨d4, hrun4, hn4, hb4, ht4, hi4, ho4, hs4⟩ :=
        addLoop_spec self w t info.color e ((w.getClientRects e).drop k)
          (self.modifyInfo d2 e trunc) (trunc info) hinfo3
      rw [hrun4] at hdone
      simp only [Outcome.done.injEq] at hdone
      subst hdone
      have hlen3 : (self.modifyInfo d2 e trunc).nodes.length = d.nodes.length := by
        rw [hn3, hl1]
      refine ⟨d1, ((w.getClientRects e).drop k).map
        (fun r => self.newOverlay t info.color (self.placement w r)), rfl, by simp, ?_, ?_, ?_,
        ?_, ?_, ?_, ?_⟩
      · intro j r hj
        refine ⟨t, rfl, ?_⟩
        rw [List.getElem?_map, hj]
        rfl
      · rw [hn4, hn3]
      · rw [hb4, hb3, hlen3]; simp
      · rw [ht4, ht3, hlen3]; simp
      · rw [hi4, hlen3]; simp [trunc]
      · intro e' he'
        rw [ho4 e' he', hother3 e' he']
      · exact SameElems_trans hsame3 hs4

/-- A resolved, annotated element whose template exists, or that has no
rectangle, is reconciled without a fault. -/
theorem refresh_total (self : AnnotatorImpl) (w : View) (d : Dom) (a : Arg) (e : ElemId)
    (info : ElementAnnoationInfo) (hres : resolveElemOrEv d a = .target e)
    (hinfo : self.getElementAnnotationInfo d e = some info)
    (htpl : (Obj.get self.templates info.type).isSome ∨ w.getClientRects e = []) :
    ∃ d', self.refreshAnnotation w d a = .done d' := by
  rw [refresh_eq self w d a e info hres hinfo _ rfl, zip_take_min]
  rcases htpl with htpl | hrects
  · obtain ⟨t, ht⟩ := Option.isSome_iff_exists.1 htpl
    rw [ht]
    obtain ⟨d1, hd1⟩ := resizeLoop_total self w t
      ((w.getClientRects e).zip info.annotationElements) d
    rw [hd1]
    simp only [Outcome.bind]
    have he1 := (resizeLoop_done self w _ _ d d1 hd1).1
    generalize min (w.getClientRects e).length info.annotationElements.length = k
    have hinfo3 : self.getElementAnnotationInfo (self.modifyInfo
        ((info.annotationElements.drop k).foldl Dom.removeNode d1) e
        (fun i => { i with annotationElements := i.annotationElements.take k })) e =
        some { info with annotationElements := info.annotationElements.take k } := by
      rw [getInfo_modifyInfo_self, foldl_removeNode]
      have hg := getInfo_of_elems self d { d1 with
        body := d1.body.filter (fun x => x ∉ info.annotationElements.drop k) } he1 e
      rw [hg, hinfo]
      rfl
    obtain ⟨d4, hrun4, -⟩ := addLoop_spec self w t info.color e _ _ _ hinfo3
    exact ⟨d4, hrun4⟩
  · rw [hrects]
    simp [forEach, Outcome.bind]

theorem mem_zip_of_getElem? {α β : Type} (xs : List α) (ys : List β) (i : Nat) (x : α) (y : β)
    (hx : xs[i]? = some x) (hy : ys[i]? = some y) : (x, y) ∈ xs.zip ys := by
  have h : (xs.zip ys)[i]? = some (x, y) := by
    rw [List.getElem?_zip_eq_some]
    exact ⟨hx, hy⟩
  exact List.getElem?_mem h

/-- Everything a returning `refreshAnnotation` has done to the state, for the
resolved element `e` with record `info` and `k = min (rectangles) (fragments)`. -/
theorem refresh_done_spec (self : AnnotatorImpl) (w : View) (d d' : Dom) (a : Arg) (e : ElemId)
    (info : ElementAnnoationInfo) (hres : resolveElemOrEv d a = .target e)
    (hinfo : self.getElementAnnotationInfo d e = some info) (k : Nat)
    (hk : k = min (w.getClientRects e).length info.annotationElements.length)
    (hdone : self.refreshAnnotation w d a = .done d') :
    ∃ news : List OverlayNode,
      news.length = (w.getClientRects e).length - k ∧
      (∀ (j : Nat) (r : Rect), (w.getClientRects e)[k + j]? = some r →
        ∃ t, Obj.get self.templates info.type = some t ∧
          news[j]? = some (self.newOverlay t info.color (self.placement w r))) ∧
      d'.nodes.length = d.nodes.length + news.length ∧
      (∀ j : Nat, d'.nodes[d.nodes.length + j]? = news[j]?) ∧
      (∀ n : NodeId, n < d.nodes.length → n ∉ info.annotationElements.take k →
        d'.nodes[n]? = d.nodes[n]?) ∧
      (∀ (n : NodeId) (o : OverlayNode), d.nodes[n]? = some o →
        ∃ o1, d'.nodes[n]? = some o1 ∧ SameFrame o o1) ∧
      ((info.annotationElements.take k).Nodup →
        ∀ (i : Nat) (r : Rect) (f : NodeId) (o : OverlayNode),
          (w.getClientRects e)[i]? = some r → info.annotationElements[i]? = some f →
          d.nodes[f]? = some o →
          ∃ cells, d'.nodes[f]? = some { restyle (self.placement w r) o with cells := cells }) ∧
      d'.body = d.body.filter (fun x => x ∉ info.annotationElements.drop k) ++
        List.range' d.nodes.length news.length ∧
      d'.timers = d.timers ++ List.range' d.nodes.length news.length ∧
      self.getElementAnnotationInfo d' e = some { info with
        annotationElements :=
          info.annotationElements.take k ++ List.range' d.nodes.length news.length } ∧
      (∀ e', e' ≠ e → self.getElementAnnotationInfo d' e' = self.getElementAnnotationInfo d e') ∧
      SameElems d d' := by
  obtain ⟨d1, news, hrun, hlen, hnews, hnodes, hbody, htimers, hrec, hother, hsame⟩ :=
    refresh_done_core self w d d' a e info hres hinfo k hk hdone
  obtain ⟨-, -, -, hl1, huntouched, hframe, hnd⟩ := resizeLoop_done self w _ _ d d1 hrun
  have hsnd : ((w.getClientRects e).zip info.annotationElements).map Prod.snd =
      info.annotationElements.take k := by
    rw [hk]
    exact zip_map_snd_eq_take _ _
  have hold : ∀ n : NodeId, n < d.nodes.length → d'.nodes[n]? = d1.nodes[n]? := by
    intro n hn
    rw [hnodes, List.getElem?_append_left (by rw [hl1]; exact hn)]
  refine ⟨news, hlen, ?_, ?_, ?_, ?_, ?_, ?_, hbody, htimers, hrec, hother, hsame⟩
  · intro j r hj
    apply hnews j r
    rw [List.getElem?_drop]
    exact hj
  · rw [hnodes, List.length_append, hl1]
  · intro j
    rw [hnodes, List.getElem?_append_right (by rw [hl1]; exact Nat.le_add_right _ _), hl1,
      Nat.add_sub_cancel_left]
  · intro n hn hnot
    rw [hold n hn]
    apply huntouched
    rw [hsnd]
    exact hnot
  · intro n o ho
    have hn : n < d.nodes.length := by
      rcases Nat.lt_or_ge n d.nodes.length with h | h
      · exact h
      · rw [List.getElem?_eq_none h] at ho
        cases ho
    rw [hold n hn]
    exact hframe n o ho
  · intro hnodup i r f o hr hf ho
    have hn : f < d.nodes.length := by
      rcases Nat.lt_or_ge f d.nodes.length with h | h
      · exact h
      · rw [List.getElem?_eq_none h] at ho
        cases ho
    rw [hold f hn]
    rw [← hsnd] at hnodup
    exact hnd hnodup (r, f) (mem_zip_of_getElem? _ _ i r f hr hf) o ho

/-- An element passed directly is resolved to itself when its own `target`
property is falsy. -/
theorem resolve_elem (d : Dom) (e : ElemId) (el : Element) (hel : d.elems[e]? = some el)
    (hplain : el.target = false) : resolveElemOrEv d (.elem (.target e)) = .target e := by
  simp [resolveElemOrEv, hel, hplain]

/-- When `refreshAnnotation(e)` returns and `e` has a record, `e` was resolved
to itself. -/
theorem resolve_of_done (self : AnnotatorImpl) (w : View) (d d' : Dom) (e : ElemId)
    (info : ElementAnnoationInfo) (hinfo : self.getElementAnnotationInfo d e = some info)
    (hdone : self.refreshAnnotation w d (.elem (.target e)) = .done d') :
    resolveElemOrEv d (.elem (.target e)) = .target e := by
  obtain ⟨el, hel, -⟩ := getInfo_some_elem self d e info hinfo
  cases ht : el.target with
  | false => exact resolve_elem d e el hel ht
  | true =>
    have : resolveElemOrEv d (.elem (.target e)) = .undef := by
      simp [resolveElemOrEv, hel, ht]
    unfold AnnotatorImpl.refreshAnnotation at hdone
    rw [this] at hdone
    cases hdone

/-! ## `unannotate`, step by step -/

theorem remove_spec (self : AnnotatorImpl) (info : ElementAnnoationInfo) (d : Dom) (e : ElemId) :
    self.getElementAnnotationInfo (info.remove d e self.key) e = none ∧
    (∀ e', e' ≠ e → self.getElementAnnotationInfo (info.remove d e self.key) e' =
      self.getElementAnnotationInfo d e') ∧
    (info.remove d e self.key).elems.length = d.elems.length ∧
    (info.remove d e self.key).nodes = d.nodes ∧
    (info.remove d e self.key).timers = d.timers ∧
    (info.remove d e self.key).body =
      d.body.filter (fun x => x ∉ info.annotationElements) := by
  unfold ElementAnnoationInfo.remove
  rw [foldl_removeNode]
  refine ⟨?_, ?_, ?_, rfl, rfl, rfl⟩
  · rw [getInfo_modifyElem, if_pos rfl]
    show (match d.elems[e]? with
      | some el => Obj.get (Obj.delete el.props self.key) self.key
      | none => none) = none
    cases d.elems[e]? with
    | none => rfl
    | some el => exact Obj.get_delete_self _ _
  · intro e' he'
    rw [getInfo_modifyElem, if_neg (fun h => he' h.symm)]
    rfl
  · exact length_modifyAt _ _ _

/-- One iteration of `unannotate` on an existing element: it returns, the
element has no record afterwards, no other element gains or loses one, and
nothing changes when the element had none. -/
theorem unannotateStep_spec (self : AnnotatorImpl) (d : Dom) (e : ElemId)
    (he : e < d.elems.length) :
    ∃ d1, self.unannotateStep d e = .done d1 ∧
      self.getElementAnnotationInfo d1 e = none ∧
      (∀ e', e' ≠ e → self.getElementAnnotationInfo d1 e' = self.getElementAnnotationInfo d e') ∧
      d1.elems.length = d.elems.length ∧
      (self.getElementAnnotationInfo d e = none → d1 = d) := by
  have hel : ∃ el, d.elems[e]? = some el := ⟨d.elems[e], List.getElem?_eq_getElem he⟩
  obtain ⟨el, hel⟩ := hel
  unfold AnnotatorImpl.unannotateStep
  simp only [hel]
  cases hinfo : self.getElementAnnotationInfo d e with
  | none => exact ⟨d, rfl, hinfo, fun _ _ => rfl, rfl, fun _ => rfl⟩
  | some info =>
    obtain ⟨h1, h2, h3, -⟩ := remove_spec self info d e
    simp only [AnnotatorImpl.clearElementAnnotationInfo, hinfo, Outcome.bind]
    refine ⟨_, rfl, ?_, ?_, ?_, fun h => by cases h⟩
    · rw [getInfo_modifyElem, if_pos rfl]
      have h1' := h1
      unfold AnnotatorImpl.getElementAnnotationInfo at h1'
      cases hx : (info.remove d e self.key).elems[e]? with
      | none => rfl
      | some x =>
        rw [hx] at h1'
        exact h1'
    · intro e' he'
      rw [getInfo_modifyElem, if_neg (fun h => he' h.symm)]
      exact h2 e' he'
    · show (modifyAt _ _ _).length = _
      rw [length_modifyAt]
      exact h3

theorem unannotate_spec (self : AnnotatorImpl) (elems : List ElemId) (d : Dom)
    (hvalid : ∀ e ∈ elems, e < d.elems.length) :
    ∃ d1, self.unannotate d elems = .done d1 ∧
      (∀ e ∈ elems, self.getElementAnnotationInfo d1 e = none) ∧
      (∀ e', self.getElementAnnotationInfo d e' = none →
        self.getElementAnnotationInfo d1 e' = none) ∧
      (∀ e', e' ∉ elems → self.getElementAnnotationInfo d1 e' =
        self.getElementAnnotationInfo d e') ∧
      d1.elems.length = d.elems.length ∧
      ((∀ e ∈ elems, self.getElementAnnotationInfo d e = none) → d1 = d) := by
  induction elems generalizing d with
  | nil =>
    exact ⟨d, rfl, fun _ h => (by cases h), fun _ h => h, fun _ _ => rfl, rfl, fun _ => rfl⟩
  | cons x xs ih =>
    obtain ⟨d0, hstep, hx, hother, hlen, hnop⟩ :=
      unannotateStep_spec self d x (hvalid x (List.mem_cons_self _ _))
    have hkeep : ∀ e', self.getElementAnnotationInfo d e' = none →
        self.getElementAnnotationInfo d0 e' = none := by
      intro e' h
      by_cases hex : e' = x
      · rw [hex]; exact hx
      · rw [hother e' hex]; exact h
    obtain ⟨d1, hrun, hall, hkeep1, hout1, hlen1, hnop1⟩ := ih d0
      (fun e he => by rw [hlen]; exact hvalid e (List.mem_cons_of_mem _ he))
    refine ⟨d1, ?_, ?_, fun e' h => hkeep1 e' (hkeep e' h), ?_, hlen1.trans hlen, ?_⟩
    · show forEach self.unannotateStep (x :: xs) d = _
      simp only [forEach, hstep]
      exact hrun
    · intro e he
      rcases List.mem_cons.1 he with h | h
      · rw [h]; exact hkeep1 x hx
      · exact hall e h
    · intro e' he'
      simp only [List.mem_cons, not_or] at he'
      rw [hout1 e' he'.2, hother e' he'.1]
    · intro h
      have h0 : d0 = d := hnop (h x (List.mem_cons_self _ _))
      rw [h0] at hnop1
      exact hnop1 (fun e he => h e (List.mem_cons_of_mem _ he))

theorem modifyElem_target (d : Dom) (e : ElemId) (g : Element → Element)
    (hg : ∀ el, (g el).target = el.target) (e' : ElemId) (el : Element)
    (hel : d.elems[e']? = some el) :
    ∃ el1, (d.modifyElem e g).elems[e']? = some el1 ∧ el1.target = el.target := by
  unfold Dom.modifyElem
  simp only [getElem?_modifyAt]
  by_cases h : e = e'
  · rw [if_pos h, hel]
    exact ⟨g el, rfl, hg el⟩
  · rw [if_neg h]
    exact ⟨el, hel, rfl⟩

/-- The loop of `unannotate` leaves the `target` property of every element
alone. -/
theorem unannotate_target (self : AnnotatorImpl) (elems : List ElemId) (d : Dom) (e' : ElemId)
    (el : Element) (hel : d.elems[e']? = some el) :
    ∃ el1, (self.unannotate d elems).state.elems[e']? = some el1 ∧ el1.target = el.target := by
  unfold AnnotatorImpl.unannotate
  apply forEach_state_inv
    (fun x => ∃ el1, x.elems[e']? = some el1 ∧ el1.target = el.target)
  · intro x e ⟨el1, hel1, ht1⟩
    unfold AnnotatorImpl.unannotateStep
    cases hx : x.elems[e]? with
    | none => exact ⟨el1, hel1, ht1⟩
    | some elx =>
      simp only
      cases hinfo : self.getElementAnnotationInfo x e with
      | none => exact ⟨el1, hel1, ht1⟩
      | some info =>
        simp only [AnnotatorImpl.clearElementAnnotationInfo, hinfo, Outcome.bind, Outcome.state]
        have h1 : ∃ el2, (info.remove x e self.key).elems[e']? = some el2 ∧
            el2.target = el1.target := by
          unfold ElementAnnoationInfo.remove
          rw [foldl_removeNode]
          exact modifyElem_target
            { x with body := x.body.filter (fun n => n ∉ info.annotationElements) } e
            (fun y => { y with props := Obj.delete y.props self.key })
            (fun _ => rfl) e' el1 hel1
        obtain ⟨el2, hel2, ht2⟩ := h1
        obtain ⟨el3, hel3, ht3⟩ := modifyElem_target (info.remove x e self.key) e
          (fun y => { y with classes :=
            goog.dom.classes.enable y.classes self.getCssClassForAnnotated false })
          (fun _ => rfl) e' el2 hel2
        exact ⟨el3, hel3, ht3.trans (ht2.trans ht1)⟩
  · exact ⟨el, hel, rfl⟩

/-! ## C1: the fragment count after a refresh -/

/-- C1. For an element with an annotation record, whatever the prior fragment
list and the current rectangle list (the empty one included), a
`refreshAnnotation` call that returns normally leaves a record whose fragment
list has exactly as many entries as there are rectangles. -/
theorem refreshAnnotation_fragment_count (self : AnnotatorImpl) (w : View) (d d' : Dom)
    (e : ElemId) (info : ElementAnnoationInfo)
    (hinfo : self.getElementAnnotationInfo d e = some info)
    (hdone : self.refreshAnnotation w d (.elem (.target e)) = .done d') :
    ∃ info', self.getElementAnnotationInfo d' e = some info' ∧
      info'.annotationElements.length = (w.getClientRects e).length := by
  have hres := resolve_of_done self w d d' e info hinfo hdone
  obtain ⟨news, hlen, -, -, -, -, -, -, -, -, hrec, -, -⟩ :=
    refresh_done_spec self w d d' (.elem (.target e)) e info hres hinfo _ rfl hdone
  refine ⟨_, hrec, ?_⟩
  simp only [List.length_append, List.length_take, List.length_range', hlen]
  omega

/-- C1 at a concrete input: three fragments, one rectangle left. -/
theorem refreshAnnotation_fragment_count_witness :
    ∃ info', exAnnotator.getElementAnnotationInfo
        (exAnnotator.refreshAnnotation (exView [exRect 5 5 50 20]) exDom3
          (.elem (.target 0))).state 0 = some info' ∧
      info'.annotationElements.length = ((exView [exRect 5 5 50 20]).getClientRects 0).length :=
  refreshAnnotation_fragment_count exAnnotator (exView [exRect 5 5 50 20]) exDom3 _ 0
    { type := "underline", color := "red", annotationElements := [0, 1, 2] }
    (by decide!) (by decide!)

/-! ## C2: placement after `annotate` and one refresh -/

theorem adjustRect_spec (y : ℚ) (r : Rect) :
    (adjustRect y r).left = r.left ∧ (adjustRect y r).right = r.right ∧
    (adjustRect y r).top = r.top + y ∧ (adjustRect y r).bottom = r.bottom + y ∧
    (r.width = none →
      (adjustRect y r).width = some (r.right - r.left) ∧
        (adjustRect y r).height = some (r.bottom - r.top)) ∧
    (∀ v, r.width = some v →
      (adjustRect y r).width = some v ∧ (adjustRect y r).height = r.height) := by
  unfold adjustRect
  cases hw : r.width with
  | none =>
    refine ⟨rfl, rfl, rfl, rfl, fun _ => ⟨rfl, ?_⟩, fun v h => (by cases h)⟩
    simp only [hw]
    congr 1
    ring
  | some v =>
    refine ⟨?_, ?_, ?_, ?_, fun h => (by cases h), fun v' h => ?_⟩ <;> simp_all

/-- What `annotateStep` does before it calls `refreshAnnotation`: a fresh record
is attached, the nodes and the body are untouched. -/
theorem annotateStep_eq (self : AnnotatorImpl) (w : View) (type color : String) (d : Dom)
    (e : ElemId) (el : Element) (hel : d.elems[e]? = some el) :
    ∃ da, self.annotateStep w type color d e = self.refreshAnnotation w da (.elem (.target e)) ∧
      self.getElementAnnotationInfo da e = some (ElementAnnoationInfo.new type color) ∧
      (∀ e', e' ≠ e → self.getElementAnnotationInfo da e' = self.getElementAnnotationInfo d e') ∧
      da.nodes = d.nodes ∧ da.body = d.body ∧ da.timers = d.timers ∧
      (∃ ela, da.elems[e]? = some ela ∧ ela.target = el.target) ∧
      da.elems.length = d.elems.length ∧
      (∀ e' el', e' ≠ e → d.elems[e']? = some el' → da.elems[e']? = some el') := by
  unfold AnnotatorImpl.annotateStep
  simp only [hel]
  refine ⟨_, rfl, ?_, ?_, rfl, rfl, rfl, ?_, ?_, ?_⟩
  · rw [getInfo_modifyElem, if_pos rfl]
    unfold AnnotatorImpl.setElementAnnotationInfo Dom.modifyElem
    simp only [getElem?_modifyAt_self, hel, Option.map_some']
    exact Obj.get_set_self _ _ _
  · intro e' he'
    rw [getInfo_modifyElem, if_neg (fun h => he' h.symm)]
    unfold AnnotatorImpl.setElementAnnotationInfo
    rw [getInfo_modifyElem, if_neg (fun h => he' h.symm)]
  · unfold AnnotatorImpl.setElementAnnotationInfo Dom.modifyElem
    simp only [getElem?_modifyAt_self, hel, Option.map_some']
    exact ⟨_, rfl, rfl⟩
  · unfold AnnotatorImpl.setElementAnnotationInfo Dom.modifyElem
    simp only [length_modifyAt]
  · intro e' el' he' hel'
    unfold AnnotatorImpl.setElementAnnotationInfo Dom.modifyElem
    simp only [getElem?_modifyAt_ne _ _ _ _ (fun h => he' h.symm)]
    exact hel'

/-- What a returning `annotate` of one element leaves: a record of the given
type and colour whose fragments are the nodes allocated at `L ..`, one per
rectangle, each as the add loop builds it. -/
theorem annotate_single_done (self : AnnotatorImpl) (w : View) (d d1 : Dom) (e : ElemId)
    (type color : String) (h1 : self.annotate w d [e] type color = .done d1) :
    ∃ L : Nat,
      self.getElementAnnotationInfo d1 e = some
        { type := type, color := color,
          annotationElements := List.range' L (w.getClientRects e).length } ∧
      d1.nodes.length = L + (w.getClientRects e).length ∧
      (∀ (j : Nat) (r : Rect), (w.getClientRects e)[j]? = some r →
        ∃ t, Obj.get self.templates type = some t ∧
          d1.nodes[L + j]? = some (self.newOverlay t color (self.placement w r))) ∧
      ∃ el, d1.elems[e]? = some el ∧ el.target = false := by
  unfold AnnotatorImpl.annotate at h1
  cases hel : d.elems[e]? with
  | none =>
    have : self.unannotate d [e] = .fault d := by
      simp [AnnotatorImpl.unannotate, forEach, AnnotatorImpl.unannotateStep, hel]
    rw [this] at h1
    cases h1
  | some el =>
    have hlt : e < d.elems.length := by
      rcases Nat.lt_or_ge e d.elems.length with h | h
      · exact h
      · rw [List.getElem?_eq_none h] at hel
        cases hel
    obtain ⟨d0, hun, -, -, -, hlen0, -⟩ := unannotate_spec self [e] d
      (fun x hx => by rw [List.mem_singleton.1 hx]; exact hlt)
    rw [hun] at h1
    simp only [Outcome.bind, forEach] at h1
    have hlt0 : e < d0.elems.length := by rw [hlen0]; exact hlt
    have hel0 : ∃ el0, d0.elems[e]? = some el0 :=
      ⟨d0.elems[e], List.getElem?_eq_getElem hlt0⟩
    obtain ⟨el0, hel0⟩ := hel0
    obtain ⟨da, hstep, hinfoa, -, hna, -, -, ⟨ela, hela, hta⟩, -, -⟩ :=
      annotateStep_eq self w type color d0 e el0 hel0
    rw [hstep] at h1
    cases hr : self.refreshAnnotation w da (.elem (.target e)) with
    | fault x => rw [hr] at h1; cases h1
    | done x =>
      rw [hr] at h1
      simp only [Outcome.done.injEq] at h1
      subst h1
      have hres := resolve_of_done self w da x e _ hinfoa hr
      obtain ⟨news, hlen, hnews, hnl, hnew, -, -, -, -, -, hrec, -, hsame⟩ :=
        refresh_done_spec self w da x (.elem (.target e)) e _ hres hinfoa 0
          (by simp [ElementAnnoationInfo.new]) hr
      have hplain : ela.target = false := by
        cases ht : ela.target with
        | false => rfl
        | true =>
          have : resolveElemOrEv da (.elem (.target e)) = .undef := by
            simp [resolveElemOrEv, hela, ht]
          rw [this] at hres
          cases hres
      refine ⟨da.nodes.length, ?_, ?_, ?_, ?_⟩
      · rw [hrec]
        simp [ElementAnnoationInfo.new, hlen]
      · rw [hnl, hlen]
        simp
      · intro j r hj
        obtain ⟨t, ht, hn⟩ := hnews j r (by simpa using hj)
        exact ⟨t, ht, by rw [hnew j, hn]; rfl⟩
      · obtain ⟨el1, hel1, ht1, -, -⟩ := hsame.2 e ela hela
        exact ⟨el1, hel1, ht1.trans hplain⟩

/-- C2. After `annotate(E, type, color)` followed by one `refreshAnnotation(E)`
pass, both having returned, in an unchanged view of `N` rectangles: the record
of `E` has `N` fragments, and for every `i < N` the outer wrapper of fragment
`i` has the left, top, width and height of
`positioner.getPosition(adjustedRect i, options.height)`, where the adjusted
rectangle is `adjustRect`: top and bottom moved by the scroll offset, and, when
the rectangle omits `width`, `width = right - left` and `height = bottom - top`.
Both calls do return when `E` is an element whose own `target` property is
falsy and the type has a template. -/
theorem annotate_then_refresh_placement (self : AnnotatorImpl) (w : View) (d : Dom)
    (e : ElemId) (type color : String) :
    (∀ d1 d2, self.annotate w d [e] type color = .done d1 →
      self.refreshAnnotation w d1 (.elem (.target e)) = .done d2 →
      ∃ info, self.getElementAnnotationInfo d2 e = some info ∧
        info.annotationElements.length = (w.getClientRects e).length ∧
        ∀ (i : Nat) (r : Rect), (w.getClientRects e)[i]? = some r →
          ∃ f o, info.annotationElements[i]? = some f ∧ d2.nodes[f]? = some o ∧
            o.left = some
              (self.positioner (adjustRect w.yOffset r) (Obj.get self.options "height")).left ∧
            o.top = some
              (self.positioner (adjustRect w.yOffset r) (Obj.get self.options "height")).top ∧
            o.width = some
              (self.positioner (adjustRect w.yOffset r) (Obj.get self.options "height")).width ∧
            o.height = some
              (self.positioner (adjustRect w.yOffset r) (Obj.get self.options "height")).height) ∧
    (∀ el t, d.elems[e]? = some el → el.target = false →
      Obj.get self.templates type = some t →
      ∃ d1 d2, self.annotate w d [e] type color = .done d1 ∧
        self.refreshAnnotation w d1 (.elem (.target e)) = .done d2) ∧
    (∀ r : Rect,
      (adjustRect w.yOffset r).top = r.top + w.yOffset ∧
      (adjustRect w.yOffset r).bottom = r.bottom + w.yOffset ∧
      (r.width = none →
        (adjustRect w.yOffset r).width = some (r.right - r.left) ∧
          (adjustRect w.yOffset r).height = some (r.bottom - r.top))) := by
  refine ⟨?_, ?_, ?_⟩
  · intro d1 d2 h1 h2
    obtain ⟨L, hinfo1, hlen1, hnodes1, el1, hel1, hplain1⟩ :=
      annotate_single_done self w d d1 e type color h1
    have hres := resolve_elem d1 e el1 hel1 hplain1
    obtain ⟨news, hlen, -, -, -, -, -, hresized, -, -, hrec, -, -⟩ :=
      refresh_done_spec self w d1 d2 (.elem (.target e)) e _ hres hinfo1
        (w.getClientRects e).length (by simp) h2
    have hnews0 : news.length = 0 := by rw [hlen]; simp
    have htake : List.take (w.getClientRects e).length
        (List.range' L (w.getClientRects e).length) =
        List.range' L (w.getClientRects e).length :=
      List.take_of_length_le (by simp)
    simp only [htake] at hresized hrec
    refine ⟨_, hrec, ?_, ?_⟩
    · simp [hnews0]
    · intro i r hr
      have hi : i < (w.getClientRects e).length := by
        rcases Nat.lt_or_ge i (w.getClientRects e).length with h | h
        · exact h
        · rw [List.getElem?_eq_none h] at hr
          cases hr
      obtain ⟨t, -, hnode⟩ := hnodes1 i r hr
      have hf : (List.range' L (w.getClientRects e).length)[i]? = some (L + i) := by
        rw [List.getElem?_range' _ _ hi]
        simp
      obtain ⟨cells, hcells⟩ := hresized (List.nodup_range' _ _) i r (L + i) _ hr hf hnode
      refine ⟨L + i, _, ?_, hcells, rfl, rfl, rfl, rfl⟩
      simp only [hnews0, List.range'_zero, List.append_nil]
      exact hf
  · intro el t hel hplain htpl
    have hlt : e < d.elems.length := by
      rcases Nat.lt_or_ge e d.elems.length with h | h
      · exact h
      · rw [List.getElem?_eq_none h] at hel
        cases hel
    obtain ⟨d0, hun, -, -, -, hlen0, -⟩ := unannotate_spec self [e] d
      (fun x hx => by rw [List.mem_singleton.1 hx]; exact hlt)
    obtain ⟨el0, hel0, ht0⟩ := unannotate_target self [e] d e el hel
    rw [hun] at hel0
    simp only [Outcome.state] at hel0
    obtain ⟨da, hstep, hinfoa, -, -, -, -, ⟨ela, hela, hta⟩, -, -⟩ :=
      annotateStep_eq self w type color d0 e el0 hel0
    have hresa := resolve_elem da e ela hela (hta.trans (ht0.trans hplain))
    obtain ⟨d1, hd1⟩ := refresh_total self w da (.elem (.target e)) e _ hresa hinfoa
      (Or.inl (by simp [ElementAnnoationInfo.new, htpl]))
    have hann : self.annotate w d [e] type color = .done d1 := by
      unfold AnnotatorImpl.annotate
      rw [hun]
      simp only [Outcome.bind, forEach, hstep, hd1]
    obtain ⟨L, hinfo1, -, -, el1, hel1, hplain1⟩ :=
      annotate_single_done self w d d1 e type color hann
    obtain ⟨d2, hd2⟩ := refresh_total self w d1 (.elem (.target e)) e _
      (resolve_elem d1 e el1 hel1 hplain1) hinfo1 (Or.inl (by simp [htpl]))
    exact ⟨d1, d2, hann, hd2⟩
  · intro r
    obtain ⟨-, -, h3, h4, h5, -⟩ := adjustRect_spec w.yOffset r
    exact ⟨h3, h4, h5⟩

/-- C2 at a concrete input: element 0 in a view of two rectangles. -/
theorem annotate_then_refresh_placement_witness :
    ∃ info, exAnnotator.getElementAnnotationInfo
        (exAnnotator.refreshAnnotation (exView [exRect 0 0 100 20, exRect 0 20 40 20])
          (exAnnotator.annotate (exView [exRect 0 0 100 20, exRect 0 20 40 20]) exDom [0]
            "underline" "red").state (.elem (.target 0))).state 0 = some info ∧
      info.annotationElements.length = 2 :=
  let w := exView [exRect 0 0 100 20, exRect 0 20 40 20]
  let h := (annotate_then_refresh_placement exAnnotator w exDom 0 "underline" "red").1
    (exAnnotator.annotate w exDom [0] "underline" "red").state
    (exAnnotator.refreshAnnotation w (exAnnotator.annotate w exDom [0] "underline" "red").state
      (.elem (.target 0))).state
    (by decide!) (by decide!)
  match h with
  | ⟨info, h1, h2, _⟩ => ⟨info, h1, h2⟩

/-! ## C4: shrink -/

/-- C4 as stated fails on the height.  Element 0 has three fragments, created
while `options.height` was 5; after `setOptions({height: 10})` it has one
rectangle left.  `refreshAnnotation` returns and keeps fragment 0, whose outer
wrapper keeps the height 5, while the placement of rectangle 0 has the height
10: the resize loop (lines 130-133) assigns `width`, `left` and `top` only. -/
theorem refreshAnnotation_shrink_keeps_height :
    exAnnotator10.refreshAnnotation (exView [exRect 5 5 50 20]) exDom3 (.elem (.target 0)) =
      .done (exAnnotator10.refreshAnnotation (exView [exRect 5 5 50 20]) exDom3
        (.elem (.target 0))).state ∧
    exAnnotator10.getElementAnnotationInfo
      (exAnnotator10.refreshAnnotation (exView [exRect 5 5 50 20]) exDom3
        (.elem (.target 0))).state 0 =
      some { type := "underline", color := "red", annotationElements := [0] } ∧
    ((exAnnotator10.refreshAnnotation (exView [exRect 5 5 50 20]) exDom3
      (.elem (.target 0))).state.nodes[0]?).map (fun o => o.height) = some (some 5) ∧
    (exAnnotator10.positioner (adjustRect (exView [exRect 5 5 50 20]).yOffset (exRect 5 5 50 20))
      (Obj.get exAnnotator10.options "height")).height = 10 ∧
    ((exAnnotator10.refreshAnnotation (exView [exRect 5 5 50 20]) exDom3
      (.elem (.target 0))).state.nodes[0]?).map (fun o => o.height) ≠
      some (some (exAnnotator10.positioner
        (adjustRect (exView [exRect 5 5 50 20]).yOffset (exRect 5 5 50 20))
        (Obj.get exAnnotator10.options "height")).height) := by
  refine ⟨?_, ?_, ?_, ?_, ?_⟩ <;> decide!

/-- C4, amended.  Shrink: for an annotated element with `n` fragments and
`m ≤ n` rectangles, a returning `refreshAnnotation` (a) takes out of the
document exactly the fragments at indices `m .. n-1`, no other node, and creates
none, (b) leaves as fragment list the first `m` prior fragments, same nodes,
same order, and (c) when the fragments are distinct nodes, gives fragment `i`
the left, top and width of the placement of rectangle `i`, its height staying
as it was.  With `m = 0` the list becomes empty.  The call returns whenever the
element is passed with a falsy `target` property and its template exists or
`m = 0`. -/
theorem refreshAnnotation_shrink (self : AnnotatorImpl) (w : View) (d : Dom) (e : ElemId)
    (info : ElementAnnoationInfo)
    (hinfo : self.getElementAnnotationInfo d e = some info)
    (hle : (w.getClientRects e).length ≤ info.annotationElements.length) :
    (∀ d', self.refreshAnnotation w d (.elem (.target e)) = .done d' →
      d'.body = d.body.filter
        (fun x => x ∉ info.annotationElements.drop (w.getClientRects e).length) ∧
      d'.nodes.length = d.nodes.length ∧
      self.getElementAnnotationInfo d' e = some { info with
        annotationElements := info.annotationElements.take (w.getClientRects e).length } ∧
      (info.annotationElements.Nodup →
        ∀ (i : Nat) (r : Rect) (f : NodeId) (o : OverlayNode),
          (w.getClientRects e)[i]? = some r → info.annotationElements[i]? = some f →
          d.nodes[f]? = some o →
          ∃ o', d'.nodes[f]? = some o' ∧
            o'.left = some
              (self.positioner (adjustRect w.yOffset r) (Obj.get self.options "height")).left ∧
            o'.top = some
              (self.positioner (adjustRect w.yOffset r) (Obj.get self.options "height")).top ∧
            o'.width = some
              (self.positioner (adjustRect w.yOffset r) (Obj.get self.options "height")).width ∧
            o'.height = o.height)) ∧
    (∀ el, d.elems[e]? = some el → el.target = false →
      (Obj.get self.templates info.type).isSome ∨ w.getClientRects e = [] →
      ∃ d', self.refreshAnnotation w d (.elem (.target e)) = .done d' ∧
        (w.getClientRects e = [] → self.getElementAnnotationInfo d' e = some { info with
          annotationElements := [] })) := by
  have hk : (w.getClientRects e).length =
      min (w.getClientRects e).length info.annotationElements.length := by
    rw [Nat.min_eq_left hle]
  have hpost : ∀ d', self.refreshAnnotation w d (.elem (.target e)) = .done d' →
      d'.body = d.body.filter
        (fun x => x ∉ info.annotationElements.drop (w.getClientRects e).length) ∧
      d'.nodes.length = d.nodes.length ∧
      self.getElementAnnotationInfo d' e = some { info with
        annotationElements := info.annotationElements.take (w.getClientRects e).length } ∧
      (info.annotationElements.Nodup →
        ∀ (i : Nat) (r : Rect) (f : NodeId) (o : OverlayNode),
          (w.getClientRects e)[i]? = some r → info.annotationElements[i]? = some f →
          d.nodes[f]? = some o →
          ∃ cells, d'.nodes[f]? = some
            { restyle (self.placement w r) o with cells := cells }) := by
    intro d' hdone
    have hres := resolve_of_done self w d d' e info hinfo hdone
    obtain ⟨news, hlen, -, hnl, -, -, -, hresized, hbody, -, hrec, -, -⟩ :=
      refresh_done_spec self w d d' (.elem (.target e)) e info hres hinfo _ hk hdone
    have hnews0 : news.length = 0 := by rw [hlen]; simp
    simp only [hnews0, List.range'_zero, List.append_nil, Nat.add_zero] at hbody hrec hnl
    exact ⟨hbody, hnl, hrec, fun hnd => hresized (List.Nodup.sublist (List.take_sublist _ _) hnd)⟩
  refine ⟨?_, ?_⟩
  · intro d' hdone
    obtain ⟨hb, hn, hr, hres⟩ := hpost d' hdone
    refine ⟨hb, hn, hr, fun hnd i r f o hri hfi ho => ?_⟩
    obtain ⟨cells, hc⟩ := hres hnd i r f o hri hfi ho
    exact ⟨_, hc, rfl, rfl, rfl, rfl⟩
  · intro el hel hplain htpl
    obtain ⟨d', hd'⟩ := refresh_total self w d (.elem (.target e)) e info
      (resolve_elem d e el hel hplain) hinfo htpl
    refine ⟨d', hd', fun h0 => ?_⟩
    have := (hpost d' hd').2.2.1
    rw [this, h0]
    rfl

/-- The amended C4 at a concrete input: three fragments, one rectangle left; fragments 1
and 2 leave the document and fragment 0 stays. -/
theorem refreshAnnotation_shrink_witness :
    (exAnnotator.refreshAnnotation (exView [exRect 5 5 50 20]) exDom3
        (.elem (.target 0))).state.body = [0] ∧
    exAnnotator.getElementAnnotationInfo
      (exAnnotator.refreshAnnotation (exView [exRect 5 5 50 20]) exDom3
        (.elem (.target 0))).state 0 =
      some { type := "underline", color := "red", annotationElements := [0] } :=
  let h := (refreshAnnotation_shrink exAnnotator (exView [exRect 5 5 50 20]) exDom3 0
    { type := "underline", color := "red", annotationElements := [0, 1, 2] }
    (by decide!) (by decide!)).1 _ ((by decide!) :
      exAnnotator.refreshAnnotation (exView [exRect 5 5 50 20]) exDom3 (.elem (.target 0)) =
        .done (exAnnotator.refreshAnnotation (exView [exRect 5 5 50 20]) exDom3
          (.elem (.target 0))).state)
  ⟨h.1.trans (by decide!), h.2.2.1⟩

/-! ## C5: grow -/

theorem deferred_node (d : Dom) (n : NodeId) (o : OverlayNode) (ho : d.nodes[n]? = some o) :
    (d.deferred n).nodes[n]? = some { o with width := o.innerWidth } := by
  unfold Dom.deferred Dom.modifyNode
  simp only [getElem?_modifyAt_self, ho, Option.map_some']

/-- C5. Grow: for an annotated element with `n` fragments and `m > n`
rectangles, a returning `refreshAnnotation` creates exactly `m - n` nodes and
takes none out of the document; the new nodes are appended to the body and,
after the `n` retained fragments, to the fragment list, in rectangle order; at
the end of the call the outer wrapper of the new fragment for rectangle `n + j`
has width `0` (and the left, top and height of the placement) while its inner
node has the final width `position.width`, it carries the class
`'tvs-annotate-element'`, and a deferred callback is pending for it; that
callback sets the outer width to the final width.  The call returns whenever
the element is passed with a falsy `target` property and its template exists. -/
theorem refreshAnnotation_grow (self : AnnotatorImpl) (w : View) (d : Dom) (e : ElemId)
    (info : ElementAnnoationInfo)
    (hinfo : self.getElementAnnotationInfo d e = some info)
    (hgt : info.annotationElements.length < (w.getClientRects e).length) :
    (∀ d', self.refreshAnnotation w d (.elem (.target e)) = .done d' →
      d'.nodes.length = d.nodes.length +
        ((w.getClientRects e).length - info.annotationElements.length) ∧
      (∀ n : NodeId, n < d.nodes.length → (d'.nodes[n]?).isSome) ∧
      d'.body = d.body ++ List.range' d.nodes.length
        ((w.getClientRects e).length - info.annotationElements.length) ∧
      d'.timers = d.timers ++ List.range' d.nodes.length
        ((w.getClientRects e).length - info.annotationElements.length) ∧
      self.getElementAnnotationInfo d' e = some { info with
        annotationElements := info.annotationElements ++ List.range' d.nodes.length
          ((w.getClientRects e).length - info.annotationElements.length) } ∧
      ∀ (j : Nat) (r : Rect),
        (w.getClientRects e)[info.annotationElements.length + j]? = some r →
        ∃ o, d'.nodes[d.nodes.length + j]? = some o ∧
          o.width = some 0 ∧
          o.innerWidth = some
            (self.positioner (adjustRect w.yOffset r) (Obj.get self.options "height")).width ∧
          o.left = some
            (self.positioner (adjustRect w.yOffset r) (Obj.get self.options "height")).left ∧
          o.top = some
            (self.positioner (adjustRect w.yOffset r) (Obj.get self.options "height")).top ∧
          o.height = some
            (self.positioner (adjustRect w.yOffset r) (Obj.get self.options "height")).height ∧
          "tvs-annotate-element" ∈ o.classes ∧
          ∃ o2, (d'.deferred (d.nodes.length + j)).nodes[d.nodes.length + j]? = some o2 ∧
            o2.width = some
              (self.positioner (adjustRect w.yOffset r) (Obj.get self.options "height")).width) ∧
    (∀ el, d.elems[e]? = some el → el.target = false →
      (Obj.get self.templates info.type).isSome →
      ∃ d', self.refreshAnnotation w d (.elem (.target e)) = .done d') := by
  have hk : info.annotationElements.length =
      min (w.getClientRects e).length info.annotationElements.length := by
    rw [Nat.min_eq_right (Nat.le_of_lt hgt)]
  refine ⟨?_, ?_⟩
  · intro d' hdone
    have hres := resolve_of_done self w d d' e info hinfo hdone
    obtain ⟨news, hlen, hnews, hnl, hnew, -, hframe, -, hbody, htimers, hrec, -, -⟩ :=
      refresh_done_spec self w d d' (.elem (.target e)) e info hres hinfo _ hk hdone
    have hall : d.body.filter (fun x => x ∉ info.annotationElements.drop
        info.annotationElements.length) = d.body := by
      rw [List.drop_length]
      simp
    rw [hall] at hbody
    rw [List.take_length] at hrec
    rw [hlen] at hnl hbody htimers hrec
    refine ⟨hnl, ?_, hbody, htimers, hrec, ?_⟩
    · intro n hn
      obtain ⟨o1, ho1, -⟩ := hframe n (d.nodes[n]) (List.getElem?_eq_getElem hn)
      rw [ho1]
      rfl
    · intro j r hr
      obtain ⟨t, -, hn⟩ := hnews j r hr
      have hnode : d'.nodes[d.nodes.length + j]? =
          some (self.newOverlay t info.color (self.placement w r)) := by
        rw [hnew j, hn]
      refine ⟨_, hnode, rfl, rfl, rfl, rfl, rfl, ?_, ?_⟩
      · rw [newOverlay_classes]
        exact List.mem_singleton.2 rfl
      · exact ⟨_, deferred_node d' _ _ hnode, rfl⟩
  · intro el hel hplain htpl
    exact refresh_total self w d (.elem (.target e)) e info
      (resolve_elem d e el hel hplain) hinfo (Or.inl htpl)

/-- C5 at a concrete input: three fragments, five rectangles; nodes 3 and 4
are created. -/
theorem refreshAnnotation_grow_witness :
    (exAnnotator.refreshAnnotation
      (exView [exRect 0 0 9 9, exRect 0 9 9 9, exRect 0 18 9 9, exRect 0 27 9 9, exRect 0 36 5 9])
      exDom3 (.elem (.target 0))).state.body = [0, 1, 2, 3, 4] :=
  let w := exView
    [exRect 0 0 9 9, exRect 0 9 9 9, exRect 0 18 9 9, exRect 0 27 9 9, exRect 0 36 5 9]
  let h := (refreshAnnotation_grow exAnnotator w exDom3 0
    { type := "underline", color := "red", annotationElements := [0, 1, 2] }
    (by decide!) (by decide!)).1 _ ((by decide!) :
      exAnnotator.refreshAnnotation w exDom3 (.elem (.target 0)) =
        .done (exAnnotator.refreshAnnotation w exDom3 (.elem (.target 0))).state)
  h.2.2.1.trans (by decide!)

/-! ## C6: `unannotate` -/

/-- C6. For every list of existing elements (in particular a single element),
annotated or not: `unannotate` returns; afterwards `getElementAnnotationInfo`
is absent for each of them; a second `unannotate` of the same elements returns
and leaves the state exactly as the first left it; and when none of them had a
record the first call changes nothing either. -/
theorem unannotate_clears_and_idempotent (self : AnnotatorImpl) (d : Dom) (elems : List ElemId)
    (hvalid : ∀ e ∈ elems, e < d.elems.length) :
    ∃ d1, self.unannotate d elems = .done d1 ∧
      (∀ e ∈ elems, self.getElementAnnotationInfo d1 e = none) ∧
      self.unannotate d1 elems = .done d1 ∧
      ((∀ e ∈ elems, self.getElementAnnotationInfo d e = none) → d1 = d) := by
  obtain ⟨d1, hrun, hall, -, -, hlen, hnop⟩ := unannotate_spec self elems d hvalid
  refine ⟨d1, hrun, hall, ?_, hnop⟩
  obtain ⟨d2, hrun2, -, -, -, -, hnop2⟩ := unannotate_spec self elems d1
    (fun e he => by rw [hlen]; exact hvalid e he)
  rw [hrun2, hnop2 hall]

/-- C6 at a concrete input: the element annotated with three fragments. -/
theorem unannotate_clears_and_idempotent_witness :
    ∃ d1, exAnnotator.unannotate exDom3 [0] = .done d1 ∧
      (∀ e ∈ [0], exAnnotator.getElementAnnotationInfo d1 e = none) ∧
      exAnnotator.unannotate d1 [0] = .done d1 ∧
      ((∀ e ∈ [0], exAnnotator.getElementAnnotationInfo exDom3 e = none) → d1 = exDom3) :=
  unannotate_clears_and_idempotent exAnnotator exDom3 [0] (by decide!)

/-! ## C3: two refreshes in succession -/

/-- C3 as stated fails: the record of element 0 has no fragment and the element
has one rectangle.  The first `refreshAnnotation` creates fragment 0 with outer
width `0`; the second, with nothing changed and no deferred callback run in
between, sets its outer width to the placement width `100`. -/
theorem refreshAnnotation_twice_changes_width :
    exAnnotator.refreshAnnotation (exView [exRect 0 0 100 20]) exDom0 (.elem (.target 0)) =
      .done (exAnnotator.refreshAnnotation (exView [exRect 0 0 100 20]) exDom0
        (.elem (.target 0))).state ∧
    exAnnotator.refreshAnnotation (exView [exRect 0 0 100 20])
        (exAnnotator.refreshAnnotation (exView [exRect 0 0 100 20]) exDom0
          (.elem (.target 0))).state (.elem (.target 0)) =
      .done (exAnnotator.refreshAnnotation (exView [exRect 0 0 100 20])
        (exAnnotator.refreshAnnotation (exView [exRect 0 0 100 20]) exDom0
          (.elem (.target 0))).state (.elem (.target 0))).state ∧
    ((exAnnotator.refreshAnnotation (exView [exRect 0 0 100 20]) exDom0
        (.elem (.target 0))).state.nodes[0]?).map (fun o => o.width) = some (some 0) ∧
    ((exAnnotator.refreshAnnotation (exView [exRect 0 0 100 20])
        (exAnnotator.refreshAnnotation (exView [exRect 0 0 100 20]) exDom0
          (.elem (.target 0))).state (.elem (.target 0))).state.nodes[0]?).map
        (fun o => o.width) = some (some 100) ∧
    (exAnnotator.refreshAnnotation (exView [exRect 0 0 100 20]) exDom0
        (.elem (.target 0))).state ≠
      (exAnnotator.refreshAnnotation (exView [exRect 0 0 100 20])
        (exAnnotator.refreshAnnotation (exView [exRect 0 0 100 20]) exDom0
          (.elem (.target 0))).state (.elem (.target 0))).state := by
  refine ⟨?_, ?_, ?_, ?_, ?_⟩ <;> decide!

theorem getElem?_lt_of_some {α : Type} (l : List α) (i : Nat) (a : α) (h : l[i]? = some a) :
    i < l.length := by
  rcases Nat.lt_or_ge i l.length with hlt | hge
  · exact hlt
  · rw [List.getElem?_eq_none hge] at h
    cases h

/-- C3, amended.  Two `refreshAnnotation` calls in succession on an annotated
element whose `n` fragments are distinct existing nodes, with the rectangles,
the scroll offset and the options unchanged and no deferred callback run in
between, both returning: the record after the second call is the record after
the first (same fragments, as many as rectangles), and every fragment has the
same left, top and height after both calls.  The width is the same for the
fragments that existed before the first call (index below `n`); a fragment
created by the first call has width `0` after the first call and the placement
width after the second. -/
theorem refreshAnnotation_twice (self : AnnotatorImpl) (w : View) (d d1 d2 : Dom) (e : ElemId)
    (info : ElementAnnoationInfo)
    (hinfo : self.getElementAnnotationInfo d e = some info)
    (hnd : info.annotationElements.Nodup)
    (hvalid : ∀ f ∈ info.annotationElements, f < d.nodes.length)
    (h1 : self.refreshAnnotation w d (.elem (.target e)) = .done d1)
    (h2 : self.refreshAnnotation w d1 (.elem (.target e)) = .done d2) :
    ∃ info1, self.getElementAnnotationInfo d1 e = some info1 ∧
      self.getElementAnnotationInfo d2 e = some info1 ∧
      info1.annotationElements.length = (w.getClientRects e).length ∧
      ∀ (i : Nat) (f : NodeId), info1.annotationElements[i]? = some f →
        ∃ r o1 o2, (w.getClientRects e)[i]? = some r ∧
          d1.nodes[f]? = some o1 ∧ d2.nodes[f]? = some o2 ∧
          o2.left = o1.left ∧ o2.top = o1.top ∧ o2.height = o1.height ∧
          (i < info.annotationElements.length → o2.width = o1.width) ∧
          (info.annotationElements.length ≤ i →
            o1.width = some 0 ∧
            o2.width = some
              (self.positioner (adjustRect w.yOffset r) (Obj.get self.options "height")).width) := by
  have hres := resolve_of_done self w d d1 e info hinfo h1
  obtain ⟨news, hlen, hnews, hnl, hnew, -, -, hresized, -, -, hrec, -, -⟩ :=
    refresh_done_spec self w d d1 (.elem (.target e)) e info hres hinfo _ rfl h1
  generalize hk : min (w.getClientRects e).length info.annotationElements.length = k
    at hlen hnews hresized hrec
  have hkm : k ≤ (w.getClientRects e).length := by rw [← hk]; exact Nat.min_le_left _ _
  have hkn : k ≤ info.annotationElements.length := by rw [← hk]; exact Nat.min_le_right _ _
  have hlenF : (info.annotationElements.take k ++ List.range' d.nodes.length news.length).length =
      (w.getClientRects e).length := by
    simp only [List.length_append, List.length_take, List.length_range', hlen]
    omega
  have hndF : (info.annotationElements.take k ++
      List.range' d.nodes.length news.length).Nodup := by
    rw [List.nodup_append]
    refine ⟨List.Nodup.sublist (List.take_sublist _ _) hnd, List.nodup_range' _ _, ?_⟩
    intro a ha hb
    have hlt : @LT.lt Nat _ a d.nodes.length := hvalid a (List.mem_of_mem_take ha)
    rw [List.mem_range'] at hb
    obtain ⟨j, -, hj⟩ := hb
    have hj' : @Eq Nat a (d.nodes.length + 1 * j) := hj
    omega
  have hres1 := resolve_of_done self w d1 d2 e _ hrec h2
  obtain ⟨news2, hlen2, -, -, -, -, -, hresized2, -, -, hrec2, -, -⟩ :=
    refresh_done_spec self w d1 d2 (.elem (.target e)) e _ hres1 hrec
      (w.getClientRects e).length (by simp only [hlenF, Nat.min_self]) h2
  have hnews20 : news2.length = 0 := by rw [hlen2]; simp
  have htakeF : List.take (w.getClientRects e).length
      (info.annotationElements.take k ++ List.range' d.nodes.length news.length) =
      info.annotationElements.take k ++ List.range' d.nodes.length news.length :=
    List.take_of_length_le (by rw [hlenF])
  simp only [htakeF, hnews20, List.range'_zero, List.append_nil] at hresized2 hrec2
  refine ⟨_, hrec, hrec2, hlenF, ?_⟩
  intro i f hf
  simp only at hf
  have hi : i < (w.getClientRects e).length := by
    have := getElem?_lt_of_some _ _ _ hf
    rw [hlenF] at this
    exact this
  have hr : (w.getClientRects e)[i]? = some ((w.getClientRects e)[i]) :=
    List.getElem?_eq_getElem hi
  generalize (w.getClientRects e)[i] = r at hr
  by_cases hik : i < k
  · -- a fragment kept by the first call
    have hf0 : info.annotationElements[i]? = some f := by
      rw [List.getElem?_append_left (by rw [List.length_take]; omega),
        List.getElem?_take_of_lt hik] at hf
      exact hf
    have hfv : f < d.nodes.length := hvalid f (List.getElem?_mem hf0)
    obtain ⟨c1, hc1⟩ := hresized (List.Nodup.sublist (List.take_sublist _ _) hnd) i r f
      (d.nodes[f]) hr hf0 (List.getElem?_eq_getElem hfv)
    obtain ⟨c2, hc2⟩ := hresized2 hndF i r f _ hr hf hc1
    refine ⟨r, _, _, hr, hc1, hc2, rfl, rfl, rfl, fun _ => rfl, fun h => ?_⟩
    omega
  · -- a fragment created by the first call
    have hik' : k ≤ i := Nat.le_of_not_lt hik
    have hf1 : f = d.nodes.length + (i - k) := by
      have hlk : (info.annotationElements.take k).length = k := by
        rw [List.length_take]
        exact Nat.min_eq_left hkn
      rw [List.getElem?_append_right (by rw [hlk]; exact hik'), hlk] at hf
      have hlt := getElem?_lt_of_some _ _ _ hf
      rw [List.length_range'] at hlt
      rw [List.getElem?_range' _ _ hlt] at hf
      simp only [Option.some.injEq] at hf
      have hf' : @Eq Nat (d.nodes.length + 1 * (i - k)) f := hf
      show @Eq Nat f (d.nodes.length + (i - k))
      omega
    have hr' : (w.getClientRects e)[k + (i - k)]? = some r := by
      rw [Nat.add_sub_cancel' hik']
      exact hr
    obtain ⟨t, -, hn⟩ := hnews (i - k) r hr'
    have hnode : d1.nodes[f]? = some (self.newOverlay t info.color (self.placement w r)) := by
      rw [hf1, hnew, hn]
    obtain ⟨c2, hc2⟩ := hresized2 hndF i r f _ hr hf hnode
    refine ⟨r, _, _, hr, hnode, hc2, rfl, rfl, rfl, fun h => ?_, fun _ => ⟨rfl, rfl⟩⟩
    have : k = (w.getClientRects e).length ∨ k = info.annotationElements.length := by
      rw [← hk]
      rcases Nat.le_total (w.getClientRects e).length info.annotationElements.length with h | h
      · exact Or.inl (Nat.min_eq_left h)
      · exact Or.inr (Nat.min_eq_right h)
    omega

/-- The amended C3 at a concrete input: three fragments, then five rectangles. -/
theorem refreshAnnotation_twice_witness :
    ∃ info1, exAnnotator.getElementAnnotationInfo
        (exAnnotator.refreshAnnotation
          (exView [exRect 0 0 9 9, exRect 0 9 9 9, exRect 0 18 9 9, exRect 0 27 9 9,
            exRect 0 36 5 9]) exDom3 (.elem (.target 0))).state 0 = some info1 ∧
      info1.annotationElements.length = 5 :=
  let w := exView
    [exRect 0 0 9 9, exRect 0 9 9 9, exRect 0 18 9 9, exRect 0 27 9 9, exRect 0 36 5 9]
  let h := refreshAnnotation_twice exAnnotator w exDom3
    (exAnnotator.refreshAnnotation w exDom3 (.elem (.target 0))).state
    (exAnnotator.refreshAnnotation w
      (exAnnotator.refreshAnnotation w exDom3 (.elem (.target 0))).state
      (.elem (.target 0))).state 0
    { type := "underline", color := "red", annotationElements := [0, 1, 2] }
    (by decide!) (by decide!) (by decide!) (by decide!) (by decide!)
  match h with
  | ⟨info1, h1, _, h3, _⟩ => ⟨info1, h1, h3⟩

/-! ## C8: `setOptions` merges -/

theorem get_defaults_height :
    Obj.get ([("height", 5), ("opacity", 0.9)] : List (String × ℚ)) "height" = some 5 := by
  simp [Obj.get]

theorem get_new_options (id : Option String) (templates : List (String × Template))
    (positioner : Rect → Option ℚ → Position) (options : Option (List (String × ℚ)))
    (key : String) :
    Obj.get (AnnotatorImpl.new id templates positioner options).options key =
      match options with
      | some o =>
        match Obj.get o key with
        | some v => some v
        | none => Obj.get ([("height", 5), ("opacity", 0.9)] : List (String × ℚ)) key
      | none => Obj.get ([("height", 5), ("opacity", 0.9)] : List (String × ℚ)) key := by
  unfold AnnotatorImpl.new AnnotatorImpl.setOptions
  simp only [goog.object.get_extend]
  cases options with
  | some o =>
    simp only [Option.getD_some]
    cases Obj.get o key <;> rfl
  | none =>
    simp only [Option.getD_none]
    cases Obj.get ([("height", 5), ("opacity", 0.9)] : List (String × ℚ)) key <;> rfl

/-- C8. `setOptions` merges instead of replacing: every key of the supplied
object gets the supplied value, every other key keeps its prior value, and
nothing else of the annotator changes.  After construction without options,
`setOptions({opacity: 0.5})` leaves `height = 5` and sets `opacity = 0.5`; after
construction with some options, the keys supplied have the supplied values and
the others the defaults `height = 5`, `opacity = 0.9`. -/
theorem setOptions_merges (self : AnnotatorImpl) (options : List (String × ℚ))
    (id : Option String) (templates : List (String × Template))
    (positioner : Rect → Option ℚ → Position) :
    (∀ key, key ∈ Obj.keys options →
      (Obj.get options key).isSome ∧
        Obj.get (self.setOptions options).options key = Obj.get options key) ∧
    (∀ key, key ∉ Obj.keys options →
      Obj.get (self.setOptions options).options key = Obj.get self.options key) ∧
    ((self.setOptions options).id = self.id ∧
      (self.setOptions options).templates = self.templates ∧
      (self.setOptions options).positioner = self.positioner) ∧
    (Obj.get ((AnnotatorImpl.new id templates positioner none).setOptions
        [("opacity", 0.5)]).options "height" = some 5 ∧
      Obj.get ((AnnotatorImpl.new id templates positioner none).setOptions
        [("opacity", 0.5)]).options "opacity" = some 0.5) ∧
    (∀ key, key ∈ Obj.keys options →
      Obj.get (AnnotatorImpl.new id templates positioner (some options)).options key =
        Obj.get options key) ∧
    (∀ key, key ∉ Obj.keys options →
      Obj.get (AnnotatorImpl.new id templates positioner (some options)).options key =
        Obj.get ([("height", 5), ("opacity", 0.9)] : List (String × ℚ)) key) := by
  have hmem : ∀ key, key ∈ Obj.keys options → ∃ v, Obj.get options key = some v := by
    intro key hkey
    cases h : Obj.get options key with
    | some v => exact ⟨v, rfl⟩
    | none =>
      rw [Obj.get_eq_none_iff] at h
      exact absurd hkey h
  have hnot : ∀ key, key ∉ Obj.keys options → Obj.get options key = none :=
    fun key hkey => (Obj.get_eq_none_iff options key).2 hkey
  refine ⟨?_, ?_, ⟨rfl, rfl, rfl⟩, ⟨?_, ?_⟩, ?_, ?_⟩
  · intro key hkey
    obtain ⟨v, hv⟩ := hmem key hkey
    refine ⟨by rw [hv]; rfl, ?_⟩
    show Obj.get (goog.object.extend self.options options) key = _
    rw [goog.object.get_extend, hv]
  · intro key hkey
    show Obj.get (goog.object.extend self.options options) key = _
    rw [goog.object.get_extend, hnot key hkey]
  · show Obj.get (goog.object.extend _ _) "height" = _
    rw [goog.object.get_extend, get_new_options]
    simp [Obj.get]
  · show Obj.get (goog.object.extend _ _) "opacity" = _
    rw [goog.object.get_extend]
    simp [Obj.get]
  · intro key hkey
    obtain ⟨v, hv⟩ := hmem key hkey
    rw [get_new_options]
    simp only [hv]
  · intro key hkey
    rw [get_new_options]
    simp only [hnot key hkey]

/-! ## C10: the argument of `refreshAnnotation` -/

/-- An element whose own `target` property is truthy is not reconciled when it
is passed directly: the call throws and the state is as before. -/
theorem refreshAnnotation_target_property (self : AnnotatorImpl) (w : View) (d : Dom)
    (e : ElemId) (el : Element) (hel : d.elems[e]? = some el) (ht : el.target = true) :
    self.refreshAnnotation w d (.elem (.target e)) = .fault d := by
  simp [AnnotatorImpl.refreshAnnotation, resolveElemOrEv, hel, ht]

/-- An event with a truthy `target` and no `srcElement` makes the call throw. -/
theorem refreshAnnotation_event_without_srcElement (self : AnnotatorImpl) (w : View) (d : Dom)
    (r : ElemRef) : self.refreshAnnotation w d (.event (some r) none) = .fault d := by
  simp [AnnotatorImpl.refreshAnnotation, resolveElemOrEv]

/-- An event is reconciled as its `srcElement`, whatever its `target` is and
whatever the `target` property of that element. -/
theorem refreshAnnotation_event_srcElement (self : AnnotatorImpl) (w : View) (d : Dom)
    (r : ElemRef) (e : ElemId) (el : Element) (hel : d.elems[e]? = some el)
    (hplain : el.target = false) :
    self.refreshAnnotation w d (.event (some r) (some (.target e))) =
      self.refreshAnnotation w d (.elem (.target e)) := by
  simp [AnnotatorImpl.refreshAnnotation, resolveElemOrEv, hel, hplain]

/-- C10 on the code, at the failing input.  Element 1 is a link with
`target="_blank"` that has a record and one rectangle.  Passed directly,
`refreshAnnotation` throws and leaves the state as it was: the link is not
reconciled, its record keeps no fragment.  The same link carried by an event
(as `target` and `srcElement`) is reconciled: one fragment is created.  And for
the plain annotated element 0, an event that has `target` but no `srcElement`
makes the call throw, while the element passed directly is reconciled. -/
theorem refreshAnnotation_link_not_reconciled :
    exAnnotator.getElementAnnotationInfo exDomLink 1 =
      some { type := "underline", color := "red", annotationElements := [] } ∧
    exAnnotator.refreshAnnotation (exView [exRect 0 0 100 20]) exDomLink (.elem (.target 1)) =
      .fault exDomLink ∧
    (∃ d', exAnnotator.refreshAnnotation (exView [exRect 0 0 100 20]) exDomLink
        (.event (some (.target 1)) (some (.target 1))) = .done d' ∧
      exAnnotator.getElementAnnotationInfo d' 1 =
        some { type := "underline", color := "red", annotationElements := [0] }) ∧
    exAnnotator.refreshAnnotation (exView [exRect 0 0 100 20]) exDom0
      (.event (some (.target 0)) none) = .fault exDom0 ∧
    (∃ d', exAnnotator.refreshAnnotation (exView [exRect 0 0 100 20]) exDom0
        (.elem (.target 0)) = .done d' ∧
      exAnnotator.getElementAnnotationInfo d' 0 =
        some { type := "underline", color := "red", annotationElements := [0] }) := by
  refine ⟨by decide!, by decide!, ⟨(exAnnotator.refreshAnnotation (exView [exRect 0 0 100 20])
    exDomLink (.event (some (.target 1)) (some (.target 1)))).state, by decide!, by decide!⟩,
    by decide!, ⟨(exAnnotator.refreshAnnotation (exView [exRect 0 0 100 20]) exDom0
      (.elem (.target 0))).state, by decide!, by decide!⟩⟩

/-! ## C7: `annotate` with a repeated element -/

/-- C7 on the code, at the failing input `annotate([E, E], type, color)` for the
plain element 0 with one rectangle, nothing annotated before.  The call returns;
the body holds the overlay nodes 0 and 1; the record attached to the element
owns node 1 only, and the other element has no record: node 0, the fragment of
the record that the second iteration replaced, stays in the document and
belongs to no record. -/
theorem annotate_repeated_element_leaks :
    ∃ d', exAnnotator.annotate (exView [exRect 0 0 100 20]) exDom [0, 0] "underline" "red" =
        .done d' ∧
      d'.body = [0, 1] ∧ d'.elems.length = 2 ∧
      exAnnotator.getElementAnnotationInfo d' 0 =
        some { type := "underline", color := "red", annotationElements := [1] } ∧
      exAnnotator.getElementAnnotationInfo d' 1 = none :=
  ⟨(exAnnotator.annotate (exView [exRect 0 0 100 20]) exDom [0, 0] "underline" "red").state,
    by decide!, by decide!, by decide!, by decide!, by decide!⟩

/-! ## Tag/store consistency -/

theorem SameTags_refl (d : Dom) : SameTags d d :=
  fun _ o1 h => Or.inl ⟨o1, h, rfl⟩

theorem SameTags_trans {d d1 d2 : Dom} (h1 : SameTags d d1) (h2 : SameTags d1 d2) :
    SameTags d d2 := by
  intro n o2 ho2
  rcases h2 n o2 ho2 with ⟨o1, ho1, hc⟩ | hnew
  · rcases h1 n o1 ho1 with ⟨o, ho, hc1⟩ | hnew1
    · exact Or.inl ⟨o, ho, hc.trans hc1⟩
    · exact Or.inr (hc.trans hnew1)
  · exact Or.inr hnew

theorem SameTags_of_eq {d d1 : Dom} (h : d1.nodes = d.nodes) : SameTags d d1 := by
  intro n o1 ho1
  rw [h] at ho1
  exact Or.inl ⟨o1, ho1, rfl⟩

theorem SameTags_modifyNode (d : Dom) (n : NodeId) (g : OverlayNode → OverlayNode)
    (hg : ∀ o, (g o).classes = o.classes) : SameTags d (d.modifyNode n g) := by
  intro m o1 ho1
  unfold Dom.modifyNode at ho1
  simp only [getElem?_modifyAt] at ho1
  by_cases h : n = m
  · rw [if_pos h] at ho1
    cases ho : d.nodes[m]? with
    | none => rw [ho] at ho1; cases ho1
    | some o =>
      rw [ho] at ho1
      simp only [Option.map_some', Option.some.injEq] at ho1
      exact Or.inl ⟨o, rfl, by rw [← ho1]; exact hg o⟩
  · rw [if_neg h] at ho1
    exact Or.inl ⟨o1, ho1, rfl⟩

/-- The relation every step of `refreshAnnotation` keeps between the state
before and the state after. -/
theorem forEach_state_rel {α : Type} (f : Dom → α → Outcome)
    (hf : ∀ d x, SameElems d (f d x).state ∧ SameTags d (f d x).state) (xs : List α) (d : Dom) :
    SameElems d (forEach f xs d).state ∧ SameTags d (forEach f xs d).state := by
  induction xs generalizing d with
  | nil => exact ⟨SameElems_refl d, SameTags_refl d⟩
  | cons x xs ih =>
    have hx := hf d x
    simp only [forEach]
    cases hfx : f d x with
    | done d1 =>
      rw [hfx] at hx
      have h1 := ih d1
      exact ⟨SameElems_trans hx.1 h1.1, SameTags_trans hx.2 h1.2⟩
    | fault d1 =>
      rw [hfx] at hx
      exact hx

theorem bind_state_rel (o : Outcome) (f : Dom → Outcome) (d : Dom)
    (ho : SameElems d o.state ∧ SameTags d o.state)
    (hf : ∀ d1, SameElems d1 (f d1).state ∧ SameTags d1 (f d1).state) :
    SameElems d (o.bind f).state ∧ SameTags d (o.bind f).state := by
  cases o with
  | done d1 =>
    have h1 := hf d1
    exact ⟨SameElems_trans ho.1 h1.1, SameTags_trans ho.2 h1.2⟩
  | fault d1 => exact ho

theorem resizeStep_rel (self : AnnotatorImpl) (w : View) (template : Option Template)
    (d : Dom) (rf : Rect × NodeId) :
    SameElems d (self.resizeStep w template d rf).state ∧
      SameTags d (self.resizeStep w template d rf).state := by
  obtain ⟨g, hg, hstate⟩ := resizeStep_state self w template d rf
  rw [hstate]
  exact ⟨SameElems_of_eq rfl, SameTags_modifyNode d rf.2 g (fun o => (hg o).2.2.2.1)⟩

theorem addStep_rel (self : AnnotatorImpl) (w : View) (template : Option Template)
    (color : String) (e : ElemId) (d : Dom) (r : Rect) :
    SameElems d (self.addStep w template color e d r).state ∧
      SameTags d (self.addStep w template color e d r).state := by
  unfold AnnotatorImpl.addStep
  cases template with
  | none => exact ⟨SameElems_refl d, SameTags_refl d⟩
  | some t =>
    simp only [Outcome.state]
    refine ⟨?_, ?_⟩
    · have h0 : SameElems d
          { d with
            nodes := d.nodes ++ [self.newOverlay t color (self.placement w r)]
            body := d.body ++ [d.nodes.length]
            timers := d.timers ++ [d.nodes.length] } := SameElems_of_eq rfl
      exact SameElems_trans h0 (SameElems_modifyInfo self _ e _)
    · intro n o1 ho1
      have ho1' : (d.nodes ++ [self.newOverlay t color (self.placement w r)])[n]? = some o1 :=
        ho1
      rw [List.getElem?_append] at ho1'
      by_cases hn : n < d.nodes.length
      · rw [if_pos hn] at ho1'
        exact Or.inl ⟨o1, ho1', rfl⟩
      · rw [if_neg hn] at ho1'
        have hmem := List.getElem?_mem ho1'
        rw [List.mem_singleton] at hmem
        right
        rw [hmem]
        exact newOverlay_classes self t color _

/-- Whatever `refreshAnnotation` does, and whether it returns or throws, the
elements keep their classes and the presence of their records, and the overlay
nodes keep their classes or are new. -/
theorem refreshAnnotation_rel (self : AnnotatorImpl) (w : View) (d : Dom) (a : Arg) :
    SameElems d (self.refreshAnnotation w d a).state ∧
      SameTags d (self.refreshAnnotation w d a).state := by
  unfold AnnotatorImpl.refreshAnnotation
  cases resolveElemOrEv d a with
  | undef => exact ⟨SameElems_refl d, SameTags_refl d⟩
  | other => exact ⟨SameElems_refl d, SameTags_refl d⟩
  | target e =>
    simp only
    cases self.getElementAnnotationInfo d e with
    | none => exact ⟨SameElems_refl d, SameTags_refl d⟩
    | some info =>
      simp only
      generalize min (w.getClientRects e).length info.annotationElements.length = k
      apply bind_state_rel
      · exact forEach_state_rel _ (resizeStep_rel self w _) _ d
      · intro d1
        have h2 : SameElems d1 (self.modifyInfo
            ((info.annotationElements.drop k).foldl Dom.removeNode d1) e
            (fun i => { i with annotationElements := i.annotationElements.take k })) ∧
            SameTags d1 (self.modifyInfo
            ((info.annotationElements.drop k).foldl Dom.removeNode d1) e
            (fun i => { i with annotationElements := i.annotationElements.take k })) := by
          rw [foldl_removeNode]
          refine ⟨?_, SameTags_of_eq rfl⟩
          have h0 : SameElems d1 { d1 with
              body := d1.body.filter (fun x => x ∉ info.annotationElements.drop k) } :=
            SameElems_of_eq rfl
          exact SameElems_trans h0 (SameElems_modifyInfo self _ e _)
        have h3 := forEach_state_rel _ (addStep_rel self w
          (Obj.get self.templates info.type) info.color e) ((w.getClientRects e).drop k)
          (self.modifyInfo ((info.annotationElements.drop k).foldl Dom.removeNode d1) e
            (fun i => { i with annotationElements := i.annotationElements.take k }))
        exact ⟨SameElems_trans h2.1 h3.1, SameTags_trans h2.2 h3.2⟩

theorem consistent_iff (self : AnnotatorImpl) (d : Dom) :
    self.Consistent d ↔
      (∀ (e : ElemId) (el : Element), d.elems[e]? = some el →
        decide (self.getCssClassForAnnotated ∈ el.classes) =
          (Obj.get el.props self.key).isSome) ∧
      (∀ (n : NodeId) (o : OverlayNode), d.nodes[n]? = some o →
        self.getCssClassForAnnotated ∉ o.classes) := by
  constructor
  · intro h
    refine ⟨fun e el hel => ?_, fun n o ho => ?_⟩
    · have := h (.target e)
      simpa [Dom.hasClass, AnnotatorImpl.hasRecord, AnnotatorImpl.getElementAnnotationInfo,
        hel] using this
    · have := h (.overlay n)
      simpa [Dom.hasClass, AnnotatorImpl.hasRecord, ho] using this
  · rintro ⟨h1, h2⟩ r
    cases r with
    | target e =>
      simp only [Dom.hasClass, AnnotatorImpl.hasRecord, AnnotatorImpl.getElementAnnotationInfo]
      cases hel : d.elems[e]? with
      | none => rfl
      | some el => exact h1 e el hel
    | overlay n =>
      simp only [Dom.hasClass, AnnotatorImpl.hasRecord]
      cases ho : d.nodes[n]? with
      | none => rfl
      | some o => simpa using h2 n o ho

theorem consistent_of_rel (self : AnnotatorImpl) (d d1 : Dom)
    (hcls : self.getCssClassForAnnotated ≠ "tvs-annotate-element")
    (hc : self.Consistent d) (he : SameElems d d1) (ht : SameTags d d1) :
    self.Consistent d1 := by
  rw [consistent_iff] at hc ⊢
  refine ⟨fun e el1 hel1 => ?_, fun n o1 ho1 => ?_⟩
  · have hlt : e < d.elems.length := by
      rw [← he.1]
      exact getElem?_lt_of_some _ _ _ hel1
    obtain ⟨el1', hel1', -, hcl, hp⟩ := he.2 e (d.elems[e]) (List.getElem?_eq_getElem hlt)
    rw [hel1] at hel1'
    simp only [Option.some.injEq] at hel1'
    subst hel1'
    rw [hcl, hp]
    exact hc.1 e _ (List.getElem?_eq_getElem hlt)
  · rcases ht n o1 ho1 with ⟨o, ho, hcl⟩ | hnew
    · rw [hcl]
      exact hc.2 n o ho
    · rw [hnew]
      simpa using hcls

theorem consistent_refreshAnnotation (self : AnnotatorImpl) (w : View) (d : Dom) (a : Arg)
    (hcls : self.getCssClassForAnnotated ≠ "tvs-annotate-element")
    (hc : self.Consistent d) : self.Consistent (self.refreshAnnotation w d a).state :=
  consistent_of_rel self d _ hcls hc (refreshAnnotation_rel self w d a).1
    (refreshAnnotation_rel self w d a).2

theorem consistent_unannotateStep (self : AnnotatorImpl) (d : Dom) (e : ElemId)
    (hc : self.Consistent d) : self.Consistent (self.unannotateStep d e).state := by
  unfold AnnotatorImpl.unannotateStep
  cases hel : d.elems[e]? with
  | none => exact hc
  | some el =>
    simp only
    cases hinfo : self.getElementAnnotationInfo d e with
    | none => exact hc
    | some info =>
      simp only [AnnotatorImpl.clearElementAnnotationInfo, hinfo, Outcome.bind, Outcome.state]
      rw [consistent_iff] at hc ⊢
      unfold ElementAnnoationInfo.remove
      rw [foldl_removeNode]
      refine ⟨fun e' el' hel' => ?_, fun n o ho => hc.2 n o ho⟩
      simp only [Dom.modifyElem, modifyAt_modifyAt, getElem?_modifyAt] at hel'
      by_cases h : e = e'
      · rw [if_pos h, ← h, hel] at hel'
        simp only [Option.map_some', Option.some.injEq] at hel'
        rw [← hel']
        simp [goog.dom.classes.enable, Obj.get_delete_self]
      · rw [if_neg h] at hel'
        exact hc.1 e' el' hel'

theorem consistent_unannotate (self : AnnotatorImpl) (d : Dom) (elems : List ElemId)
    (hc : self.Consistent d) : self.Consistent (self.unannotate d elems).state :=
  forEach_state_inv self.Consistent self.unannotateStep
    (fun x e hx => consistent_unannotateStep self x e hx) elems d hc

theorem consistent_annotateStep (self : AnnotatorImpl) (w : View) (type color : String)
    (d : Dom) (e : ElemId) (hcls : self.getCssClassForAnnotated ≠ "tvs-annotate-element")
    (hplain : isPlainClassName self.getCssClassForAnnotated = true)
    (hc : self.Consistent d) : self.Consistent (self.annotateStep w type color d e).state := by
  unfold AnnotatorImpl.annotateStep
  cases hel : d.elems[e]? with
  | none => exact hc
  | some el =>
    simp only
    apply consistent_refreshAnnotation self w _ _ hcls
    rw [consistent_iff] at hc ⊢
    refine ⟨fun e' el' hel' => ?_, fun n o ho => hc.2 n o ho⟩
    simp only [AnnotatorImpl.setElementAnnotationInfo, Dom.modifyElem, modifyAt_modifyAt,
      getElem?_modifyAt] at hel'
    by_cases h : e = e'
    · rw [if_pos h, ← h, hel] at hel'
      simp only [Option.map_some', Option.some.injEq] at hel'
      rw [← hel']
      simp only [Obj.get_set_self, Option.isSome_some, decide_eq_true_eq,
        goog.dom.classes.enable, if_true]
      split
      · assumption
      · simp [classes_get_plain _ hplain]
    · rw [if_neg h] at hel'
      exact hc.1 e' el' hel'

theorem consistent_call (self : AnnotatorImpl) (d : Dom) (c : Call)
    (hcls : self.getCssClassForAnnotated ≠ "tvs-annotate-element")
    (hplain : isPlainClassName self.getCssClassForAnnotated = true)
    (hc : self.Consistent d) : self.Consistent (self.call d c).state := by
  cases c with
  | annotate w elems type color =>
    show self.Consistent (self.annotate w d elems type color).state
    unfold AnnotatorImpl.annotate
    have h1 := consistent_unannotate self d elems hc
    cases hun : self.unannotate d elems with
    | fault d1 =>
      rw [hun] at h1
      exact h1
    | done d1 =>
      rw [hun] at h1
      exact forEach_state_inv self.Consistent _
        (fun x e hx => consistent_annotateStep self w type color x e hcls hplain hx) elems d1 h1
  | unannotate elems => exact consistent_unannotate self d elems hc
  | refreshAnnotation w a => exact consistent_refreshAnnotation self w d a hcls hc
  | refreshAllAnnotations w =>
    show self.Consistent (self.refreshAllAnnotations w d).state
    unfold AnnotatorImpl.refreshAllAnnotations
    cases d.getElementsByClass w self.getCssClassForAnnotated with
    | none => exact hc
    | some elems =>
      exact forEach_state_inv self.Consistent _
        (fun x r hx => consistent_refreshAnnotation self w x (.elem r) hcls hx) elems d hc
  | deferred n =>
    exact consistent_of_rel self d _ hcls hc (SameElems_of_eq rfl)
      (SameTags_modifyNode d n _ (fun _ => rfl))

theorem consistent_run (self : AnnotatorImpl) (calls : List Call) (d : Dom)
    (hcls : self.getCssClassForAnnotated ≠ "tvs-annotate-element")
    (hplain : isPlainClassName self.getCssClassForAnnotated = true)
    (hc : self.Consistent d) : self.Consistent (self.run d calls) := by
  induction calls generalizing d with
  | nil => exact hc
  | cons c cs ih => exact ih _ (consistent_call self d c hcls hplain hc)

theorem tag_class_ne (self : AnnotatorImpl) (hid : self.id ≠ "annotate-element") :
    self.getCssClassForAnnotated ≠ "tvs-annotate-element" := by
  intro h
  apply hid
  have h1 : ("tvs-" ++ self.id).data = ("tvs-" ++ "annotate-element").data := by
    have := congrArg String.data h
    exact this
  rw [String.data_append, String.data_append] at h1
  exact String.ext (List.append_cancel_left h1)

theorem getElementsByClass_of_consistent (self : AnnotatorImpl) (w : View) (d : Dom)
    (hplain : isPlainClassName self.getCssClassForAnnotated = true)
    (hc : self.Consistent d) :
    d.getElementsByClass w self.getCssClassForAnnotated =
      some (((List.range d.elems.length).filter
        (fun e => (self.getElementAnnotationInfo d e).isSome)).map ElemRef.target) := by
  rw [consistent_iff] at hc
  unfold Dom.getElementsByClass
  rw [if_pos hplain]
  have hov : d.body.filter (fun n => match d.nodes[n]? with
      | some o => decide (self.getCssClassForAnnotated ∈ o.classes)
      | none => false) = [] := by
    rw [List.filter_eq_nil_iff]
    intro n _
    cases ho : d.nodes[n]? with
    | none => simp
    | some o => simpa using hc.2 n o ho
  rw [hov, List.map_nil, List.append_nil]
  congr 2
  apply List.filter_congr
  intro e _
  unfold AnnotatorImpl.getElementAnnotationInfo
  cases hel : d.elems[e]? with
  | none => rfl
  | some el => exact hc.1 e el hel

theorem consistent_of_untouched (self : AnnotatorImpl) (d : Dom) (h : self.Untouched d) :
    self.Consistent d :=
  fun r => (h r).1.trans (h r).2.symm

theorem exDom_untouched (self : AnnotatorImpl) : self.Untouched exDom := by
  intro r
  cases r with
  | target e =>
    rcases e with _ | _ | e <;>
      simp [Dom.hasClass, AnnotatorImpl.hasRecord, AnnotatorImpl.getElementAnnotationInfo,
        exDom, Obj.get]
  | overlay n => simp [Dom.hasClass, AnnotatorImpl.hasRecord, exDom]

/-- C9 on the code, at the failing input: the annotator whose id is
`'annotate-element'`.  Its tag class `'tvs-' + id` (line 49) is
`'tvs-annotate-element'`, the class line 177 gives every overlay wrapper.  From
a document in which no element carries the tag class or a record, one
`annotate` of element 0 (one rectangle) returns and creates overlay wrapper 0,
which is in the body, carries the tag class and has no record:
`getElementsByClass` of line 56 returns the annotated element 0 and that
wrapper, and the state is not consistent. -/
theorem consistency_fails_for_clashing_id :
    exAnnotatorClash.getCssClassForAnnotated = "tvs-annotate-element" ∧
    exAnnotatorClash.Untouched exDom ∧
    (∃ d', exAnnotatorClash.call exDom
        (Call.annotate (exView [exRect 0 0 100 20]) [0] "underline" "red") = .done d' ∧
      d'.body = [0] ∧
      d'.hasClass exAnnotatorClash.getCssClassForAnnotated (.overlay 0) = true ∧
      exAnnotatorClash.hasRecord d' (.overlay 0) = false ∧
      d'.getElementsByClass (exView [exRect 0 0 100 20])
          exAnnotatorClash.getCssClassForAnnotated =
        some [.target 0, .overlay 0]) ∧
    ¬ exAnnotatorClash.Consistent
      (exAnnotatorClash.run exDom
        [Call.annotate (exView [exRect 0 0 100 20]) [0] "underline" "red"]) := by
  refine ⟨by decide!, exDom_untouched _,
    ⟨(exAnnotatorClash.call exDom
      (Call.annotate (exView [exRect 0 0 100 20]) [0] "underline" "red")).state,
      by decide!, by decide!, by decide!, by decide!, by decide!⟩, ?_⟩
  intro h
  exact absurd (h (.overlay 0)) (by decide!)

/-- The batch refresh stops at an annotated link.  In `exDomLinkFirst` the link
(element 0) and the plain element 1 both have a record, with no fragment and
with fragment 0.  In a view of two rectangles `refreshAllAnnotations` finds
both elements, throws on the link (lines 99-100, then line 81) and leaves the
state as it was: element 1, which has a record, is not reconciled. -/
theorem refreshAllAnnotations_stops_at_link :
    exAnnotator.getElementAnnotationInfo exDomLinkFirst 0 =
      some { type := "underline", color := "red", annotationElements := [] } ∧
    exAnnotator.getElementAnnotationInfo exDomLinkFirst 1 =
      some { type := "underline", color := "red", annotationElements := [0] } ∧
    exDomLinkFirst.getElementsByClass (exView [exRect 0 0 50 20, exRect 0 20 50 20])
        exAnnotator.getCssClassForAnnotated = some [.target 0, .target 1] ∧
    exAnnotator.refreshAllAnnotations (exView [exRect 0 0 50 20, exRect 0 20 50 20])
        exDomLinkFirst = .fault exDomLinkFirst := by
  refine ⟨?_, ?_, ?_, ?_⟩ <;> decide!

/-- Tag/store consistency on plain ids.  For an annotator whose tag class
`'tvs-' + id` is a plain class name and whose id is not `'annotate-element'`:
from a state in which no element carries the tag class or a record of the
annotator, after any sequence of `annotate`, `unannotate`, `refreshAnnotation`
and `refreshAllAnnotations` calls (returning or throwing, in any views,
deferred callbacks firing in between), every element, target or overlay
wrapper, carries the tag class exactly when it has a record of the annotator,
and `getElementsByClass` of line 56 returns exactly the elements that have a
record. -/
theorem consistency_invariant (self : AnnotatorImpl) (hid : self.id ≠ "annotate-element")
    (hplain : isPlainClassName self.getCssClassForAnnotated = true)
    (d : Dom) (hinit : self.Untouched d) (calls : List Call) (w : View) :
    (∀ r : ElemRef,
      (self.run d calls).hasClass self.getCssClassForAnnotated r =
        self.hasRecord (self.run d calls) r) ∧
    (self.run d calls).getElementsByClass w self.getCssClassForAnnotated =
      some (((List.range (self.run d calls).elems.length).filter
        (fun e => (self.getElementAnnotationInfo (self.run d calls) e).isSome)).map
          ElemRef.target) := by
  have hc := consistent_run self calls d (tag_class_ne self hid) hplain
    (consistent_of_untouched self d hinit)
  exact ⟨hc, getElementsByClass_of_consistent self w _ hplain hc⟩

/-- The consistency at a concrete input: annotate both elements (the call
throws on the link), refresh all, unannotate the first. -/
theorem consistency_invariant_example :
    (exAnnotator.run exDom
      [Call.annotate (exView [exRect 0 0 100 20]) [0, 1] "underline" "red",
        Call.refreshAllAnnotations (exView [exRect 0 0 50 20, exRect 0 20 50 20]),
        Call.unannotate [0]]).getElementsByClass (exView [])
        exAnnotator.getCssClassForAnnotated =
      some [.target 1] :=
  (consistency_invariant exAnnotator (by decide!) (by decide!) exDom
    (exDom_untouched exAnnotator)
    [Call.annotate (exView [exRect 0 0 100 20]) [0, 1] "underline" "red",
      Call.refreshAllAnnotations (exView [exRect 0 0 50 20, exRect 0 20 50 20]),
      Call.unannotate [0]] (exView [])).2.trans (by decide!)

end tvs
